import Mathlib

/-!
Formal model of the JSON-file-backed data store layer of the resume-generator
repository (`lib/json_store/base.py`, `master_store.py`, `generation_store.py`,
`prompt_store.py`).  Python values read from the JSON files are modelled by the
`Json` inductive below; Python dicts become association lists with unique keys
(as produced by `json.load`), sets become duplicate-free lists, and exceptions
become an explicit `Except PyErr` result.  String operations (`strip`, `lower`,
`splitlines`, regular expressions over `[a-z0-9\s-]`) are modelled at the
ASCII level, which is the character set the repository data uses.
-/

/-- JSON values as loaded by `json.load` (floats are not used by the claims
under study and are omitted). Objects are association lists in insertion
order with unique keys, as Python dicts preserve. -/
inductive Json where
  | null
  | b (v : Bool)
  | i (n : Int)
  | s (v : String)
  | arr (xs : List Json)
  | obj (kvs : List (String × Json))
deriving Repr

/-- Python exceptions raised by the store layer. -/
inductive PyErr where
  | keyError (msg : String)
  | valueError (msg : String)
  | typeError (msg : String)
  | attributeError (msg : String)
deriving DecidableEq, Repr

namespace Json

/-- Python truthiness of a JSON-representable value. -/
def truthy : Json → Bool
  | .null => false
  | .b v => v
  | .i n => n != 0
  | .s v => v ≠ ""
  | .arr xs => !xs.isEmpty
  | .obj kvs => !kvs.isEmpty

/-- Values Python can put into a `set` (hashable values); lists and dicts
raise `TypeError`. -/
def hashable : Json → Bool
  | .arr _ => false
  | .obj _ => false
  | _ => true

end Json

/-! Decidable equality for `Json` (the `deriving` handler does not support
the nested occurrence of `Json` under `List`, so it is spelled out). -/

mutual

def beqJson : Json → Json → Bool
  | .null, .null => true
  | .b a, .b c => a == c
  | .i a, .i c => a == c
  | .s a, .s c => a == c
  | .arr a, .arr c => beqJsonList a c
  | .obj a, .obj c => beqJsonObj a c
  | _, _ => false

def beqJsonList : List Json → List Json → Bool
  | [], [] => true
  | x :: xs, y :: ys => beqJson x y && beqJsonList xs ys
  | _, _ => false

def beqJsonObj : List (String × Json) → List (String × Json) → Bool
  | [], [] => true
  | (k1, v1) :: xs, (k2, v2) :: ys => k1 == k2 && beqJson v1 v2 && beqJsonObj xs ys
  | _, _ => false

end

theorem beqJson_iff : ∀ (a b : Json), beqJson a b = true ↔ a = b := by
  have key : ∀ n (a b : Json), sizeOf a ≤ n → (beqJson a b = true ↔ a = b) := by
    intro n
    induction n with
    | zero => intro a b h; cases a <;> simp at h
    | succ n ih =>
      have ihList : ∀ (xs ys : List Json), sizeOf xs ≤ n + 1 →
          (beqJsonList xs ys = true ↔ xs = ys) := by
        intro xs
        induction xs with
        | nil => intro ys _; cases ys <;> simp [beqJsonList]
        | cons x xs ihx =>
          intro ys hsz
          cases ys with
          | nil => simp [beqJsonList]
          | cons y ys =>
            have hx : sizeOf x ≤ n := by
              have := List.cons.sizeOf_spec x xs
              omega
            have hxs : sizeOf xs ≤ n + 1 := by
              have := List.cons.sizeOf_spec x xs
              omega
            simp [beqJsonList, ih x y hx, ihx ys hxs]
      have ihObj : ∀ (xs ys : List (String × Json)), sizeOf xs ≤ n + 1 →
          (beqJsonObj xs ys = true ↔ xs = ys) := by
        intro xs
        induction xs with
        | nil => intro ys _; cases ys <;> simp [beqJsonObj]
        | cons x xs ihx =>
          intro ys hsz
          obtain ⟨k1, v1⟩ := x
          cases ys with
          | nil => simp [beqJsonObj]
          | cons y ys =>
            obtain ⟨k2, v2⟩ := y
            have hv : sizeOf v1 ≤ n := by
              have h1 := List.cons.sizeOf_spec (k1, v1) xs
              have h2 := Prod.mk.sizeOf_spec k1 v1
              omega
            have hxs : sizeOf xs ≤ n + 1 := by
              have h1 := List.cons.sizeOf_spec (k1, v1) xs
              omega
            simp [beqJsonObj, ih v1 v2 hv, ihx ys hxs]
      intro a b h
      cases a <;> cases b <;> simp_all [beqJson]
      case arr.arr xs ys =>
        refine ihList xs ys ?_
        have := Json.arr.sizeOf_spec xs
        omega
      case obj.obj xs ys =>
        refine ihObj xs ys ?_
        have := Json.obj.sizeOf_spec xs
        omega
  intro a b
  exact key (sizeOf a) a b le_rfl

instance : DecidableEq Json := fun a b =>
  decidable_of_iff (beqJson a b = true) (beqJson_iff a b)

/-- First-match lookup in an association list (Python dict lookup; keys are
unique after `json.load`). -/
def objFind? : List (String × Json) → String → Option Json
  | [], _ => none
  | (k0, v0) :: rest, k => if k0 = k then some v0 else objFind? rest k

/-- `d[k] = v` on a Python dict: replace the first binding of `k` in place,
or append a new binding at the end. -/
def objSet (kvs : List (String × Json)) (k : String) (v : Json) :
    List (String × Json) :=
  match kvs with
  | [] => [(k, v)]
  | (k0, v0) :: rest =>
    if k0 = k then (k0, v) :: rest else (k0, v0) :: objSet rest k v

/-! ### Python string primitives (ASCII model) -/

/-- ASCII whitespace recognised by `str.strip()` and by the regex class
`\s` (space, tab, newline, carriage return, vertical tab, form feed). -/
def pyWs (c : Char) : Bool :=
  c = ' ' || c = '\t' || c = '\n' || c = '\r' || c = '\x0b' || c = '\x0c'

/-- Remove trailing characters satisfying `p`. -/
def dropTrailing (p : Char → Bool) (l : List Char) : List Char :=
  (l.reverse.dropWhile p).reverse

/-- Remove leading and trailing characters satisfying `p`
(`str.strip` / `str.strip("-")`). -/
def stripChars (p : Char → Bool) (l : List Char) : List Char :=
  dropTrailing p (l.dropWhile p)

/-- `str.strip()` with no argument. -/
def pyStrip (s : String) : String := String.mk (stripChars pyWs s.data)

/-- `str.lower()` (ASCII model; the repository data is ASCII). -/
def pyLower (s : String) : String := String.mk (s.data.map Char.toLower)

def joinComma : List String → String
  | [] => ""
  | [x] => x
  | x :: xs => x ++ ", " ++ joinComma xs

mutual

/-- CPython `repr` restricted to JSON-representable values (string quoting
is modelled without escape sequences; repository strings contain none). -/
def pyRepr : Json → String
  | .null => "None"
  | .b true => "True"
  | .b false => "False"
  | .i n => if n < 0 then "-" ++ Nat.repr n.natAbs else Nat.repr n.natAbs
  | .s v => "\x27" ++ v ++ "\x27"
  | .arr xs => "[" ++ joinComma (pyReprList xs) ++ "]"
  | .obj kvs => "\x7b" ++ joinComma (pyReprObj kvs) ++ "\x7d"

def pyReprList : List Json → List String
  | [] => []
  | x :: xs => pyRepr x :: pyReprList xs

def pyReprObj : List (String × Json) → List String
  | [] => []
  | (k, v) :: rest => ("\x27" ++ k ++ "\x27: " ++ pyRepr v) :: pyReprObj rest

end

/-- CPython `str()` of a JSON-representable value. -/
def pyStr : Json → String
  | .s v => v
  | v => pyRepr v

/-- Line break characters recognised by `str.splitlines()` (ASCII model). -/
def pyLineBreak (c : Char) : Bool :=
  c = '\n' || c = '\r' || c = '\x0b' || c = '\x0c'

/-- Worker for `str.splitlines()`: `acc` holds the current line reversed;
`"\r\n"` counts as a single break, and a trailing break opens no new line. -/
def splitlinesAux : List Char → List Char → List String
  | acc, [] => if acc.isEmpty then [] else [String.mk acc.reverse]
  | acc, '\r' :: '\n' :: rest => String.mk acc.reverse :: splitlinesAux [] rest
  | acc, c :: rest =>
    if pyLineBreak c then String.mk acc.reverse :: splitlinesAux [] rest
    else splitlinesAux (c :: acc) rest

/-- `str.splitlines()`. -/
def pySplitlines (s : String) : List String := splitlinesAux [] s.data

/-! ### `slugify` and `ensure_unique_id` (`lib/json_store/base.py`) -/

/-- Characters kept by `re.sub(r"[^a-z0-9\s-]", "", value)` (ASCII model). -/
def slugKeep (c : Char) : Bool :=
  ('a' ≤ c && c ≤ 'z') || ('0' ≤ c && c ≤ '9') || pyWs c || c = '-'

def wsOrDash (c : Char) : Bool := pyWs c || c = '-'

/-- `re.sub(r"[\s\-]+", "-", value)`: replace each maximal run of
whitespace/hyphen characters by one hyphen.  The flag records whether the
previous character belonged to such a run. -/
def collapseRuns : Bool → List Char → List Char
  | _, [] => []
  | prev, c :: rest =>
    if wsOrDash c then
      if prev then collapseRuns true rest else '-' :: collapseRuns true rest
    else c :: collapseRuns false rest

/-- `slugify` from `lib/json_store/base.py` on a string value.  CPython calls
`uuid.uuid4()` when the input or the computed slug is empty; the model takes
that nondeterministically generated string as the `uuid` argument. -/
def slugifyStr (uuid : String) (value : String) : String :=
  if value = "" then uuid
  else
    let v1 := pyLower (pyStrip value)
    let v2 := v1.data.filter slugKeep
    let v3 := collapseRuns false v2
    let v4 := stripChars (fun c => c = '-') v3
    if v4.isEmpty then uuid else String.mk v4

/-- `slugify` on an arbitrary value: `if not value` uses Python truthiness
and returns the uuid; `.strip()` on a truthy non-string raises
`AttributeError`. -/
def slugify (uuid : String) (v : Json) : Except PyErr String :=
  if !v.truthy then .ok uuid
  else match v with
    | .s str => .ok (slugifyStr uuid str)
    | _ => .error (.attributeError "strip")

/-- The candidate id `f"{slug}-{idx}"`. -/
def candidate (slug : String) (idx : Nat) : String :=
  slug ++ "-" ++ Nat.repr idx

/-- The `while f"{slug}-{idx}" in existing: idx += 1` loop of
`ensure_unique_id`, run with explicit fuel.  `ensure_unique_id` supplies
fuel `existing.length + 1`, which `findIdx_finds_free` below shows always
suffices to reach a free candidate, so the fuelled loop computes exactly
what the unbounded Python loop does. -/
def findIdx (slug : String) (existing : List Json) : Nat → Nat → Nat
  | idx, 0 => idx
  | idx, fuel + 1 =>
    if Json.s (candidate slug idx) ∈ existing then
      findIdx slug existing (idx + 1) fuel
    else idx

/-- `ensure_unique_id` from `lib/json_store/base.py`.  `existing` models the
Python set (callers build it duplicate-free); the membership test compares
the candidate string with the set elements. -/
def ensure_unique_id (uuid : String) (base : Json) (existing : List Json) :
    Except PyErr String := do
  let slug ← slugify uuid base
  if Json.s slug ∈ existing then
    pure (candidate slug (findIdx slug existing 2 (existing.length + 1)))
  else
    pure slug

/-! ### Injectivity of the decimal rendering used by `f"{slug}-{idx}"` -/

/-- Decimal character sequence of a natural number, most significant digit
first; shown below to agree with `Nat.repr`. -/
def decChars (n : Nat) : List Char :=
  if _h : n < 10 then [Nat.digitChar n]
  else decChars (n / 10) ++ [Nat.digitChar (n % 10)]
termination_by n
decreasing_by exact Nat.div_lt_self (by omega) (by omega)

theorem toDigitsCore_eq_decChars :
    ∀ (fuel n : Nat) (ds : List Char), n < fuel →
      Nat.toDigitsCore 10 fuel n ds = decChars n ++ ds := by
  intro fuel
  induction fuel with
  | zero => intro n ds h; omega
  | succ fuel ih =>
    intro n ds h
    by_cases h10 : n < 10
    · have hdiv : n / 10 = 0 := Nat.div_eq_of_lt h10
      have hmod : n % 10 = n := Nat.mod_eq_of_lt h10
      simp [Nat.toDigitsCore, hdiv, hmod, decChars, h10]
    · have hdiv : n / 10 ≠ 0 := by
        intro hc
        have h1 : n < 10 := by
          have h2 : n / 10 * 10 ≤ n := Nat.div_mul_le_self n 10
          have h3 : n % 10 < 10 := Nat.mod_lt n (by omega)
          have h4 : 10 * (n / 10) + n % 10 = n := Nat.div_add_mod n 10
          omega
        omega
      have hlt : n / 10 < fuel := by
        have : n / 10 < n := Nat.div_lt_self (by omega) (by omega)
        omega
      rw [decChars]
      simp only [h10, dite_false]
      simp [Nat.toDigitsCore, hdiv, ih (n / 10) _ hlt]

theorem repr_eq_decChars (n : Nat) : Nat.repr n = String.mk (decChars n) := by
  have h := toDigitsCore_eq_decChars (n + 1) n [] (by omega)
  simp [Nat.repr, Nat.toDigits, List.asString, h]

/-- Numeric value of a decimal character sequence. -/
def decVal (l : List Char) : Nat :=
  l.foldl (fun acc c => acc * 10 + (c.toNat - 48)) 0

theorem decVal_append (l : List Char) (c : Char) :
    decVal (l ++ [c]) = decVal l * 10 + (c.toNat - 48) := by
  simp [decVal, List.foldl_append]

theorem digitChar_val (d : Nat) (h : d < 10) :
    (Nat.digitChar d).toNat - 48 = d := by
  interval_cases d <;> decide

theorem decVal_decChars (n : Nat) : decVal (decChars n) = n := by
  induction n using Nat.strong_induction_on with
  | _ n ih =>
    by_cases h : n < 10
    · rw [decChars]
      simp [h, decVal, digitChar_val n h]
    · rw [decChars]
      simp only [h, dite_false]
      rw [decVal_append, ih (n / 10) (Nat.div_lt_self (by omega) (by omega)),
        digitChar_val (n % 10) (Nat.mod_lt n (by omega))]
      omega

theorem repr_injective : Function.Injective Nat.repr := by
  intro a b h
  rw [repr_eq_decChars, repr_eq_decChars] at h
  have hd : decChars a = decChars b := congrArg String.data h
  have := decVal_decChars a
  rw [hd, decVal_decChars] at this
  omega

theorem candidate_injective (slug : String) :
    Function.Injective (candidate slug) := by
  intro a b h
  apply repr_injective
  unfold candidate at h
  have hdata : (slug ++ "-").data ++ (Nat.repr a).data
      = (slug ++ "-").data ++ (Nat.repr b).data := by
    have h1 : (slug ++ "-" ++ Nat.repr a).data = (slug ++ "-" ++ Nat.repr b).data := by
      rw [h]
    simpa [String.data_append] using h1
  have := List.append_cancel_left hdata
  exact String.ext this

/-! ### Correctness of the `ensure_unique_id` candidate loop -/

/-- Pigeonhole: among the `existing.length + 1` pairwise distinct candidates
`slug-idx`, `slug-(idx+1)`, …, at least one is not in `existing`. -/
theorem exists_free_candidate (slug : String) (existing : List Json) (idx : Nat) :
    ∃ k, k ≤ existing.length ∧ Json.s (candidate slug (idx + k)) ∉ existing := by
  by_contra hall
  push_neg at hall
  have hinj : Function.Injective (fun k : Nat => Json.s (candidate slug (idx + k))) := by
    intro a b hab
    simp only [Json.s.injEq] at hab
    exact Nat.add_left_cancel (candidate_injective slug hab)
  set n := existing.length with hn
  set L := (List.range (n + 1)).map (fun k => Json.s (candidate slug (idx + k))) with hL
  have hnd : L.Nodup := (List.nodup_range (n + 1)).map hinj
  have hsub : L.toFinset ⊆ existing.toFinset := by
    intro x hx
    rw [List.mem_toFinset] at hx ⊢
    rw [hL, List.mem_map] at hx
    obtain ⟨k, hk, rfl⟩ := hx
    exact hall k (by simpa using Nat.lt_succ_iff.mp (List.mem_range.mp hk))
  have hcard1 : L.toFinset.card = n + 1 := by
    rw [List.toFinset_card_of_nodup hnd, hL, List.length_map, List.length_range]
  have hcard2 : existing.toFinset.card ≤ n := List.toFinset_card_le existing
  have := Finset.card_le_card hsub
  omega

/-- The fuelled loop returns the first free candidate index, provided a free
candidate exists within the fuel window. -/
theorem findIdx_finds_free (slug : String) (existing : List Json) :
    ∀ (fuel idx : Nat),
      (∃ k, k < fuel ∧ Json.s (candidate slug (idx + k)) ∉ existing) →
      ∃ k, k < fuel ∧ findIdx slug existing idx fuel = idx + k ∧
        Json.s (candidate slug (idx + k)) ∉ existing ∧
        ∀ j, j < k → Json.s (candidate slug (idx + j)) ∈ existing := by
  intro fuel
  induction fuel with
  | zero =>
    rintro idx ⟨k, hk, _⟩
    omega
  | succ fuel ih =>
    rintro idx ⟨k, hk, hfree⟩
    by_cases hmem : Json.s (candidate slug idx) ∈ existing
    · have hk0 : k ≠ 0 := by
        rintro rfl
        simp only [Nat.add_zero] at hfree
        exact hfree hmem
      have hshift : idx + 1 + (k - 1) = idx + k := by omega
      obtain ⟨k2, hk2, heq, hfree2, hbefore⟩ :=
        ih (idx + 1) ⟨k - 1, by omega, by rw [hshift]; exact hfree⟩
      refine ⟨k2 + 1, by omega, ?_, ?_, ?_⟩
      · simp only [findIdx, if_pos hmem]
        rw [heq]
        omega
      · have h2 : idx + (k2 + 1) = idx + 1 + k2 := by omega
        rw [h2]
        exact hfree2
      · intro j hj
        cases j with
        | zero => simpa using hmem
        | succ j =>
          have h3 : idx + (j + 1) = idx + 1 + j := by omega
          rw [h3]
          exact hbefore j (by omega)
    · exact ⟨0, by omega, by simp only [findIdx, if_neg hmem, Nat.add_zero],
        by simpa using hmem, by omega⟩

theorem slugify_s (uuid s : String) :
    slugify uuid (Json.s s) = .ok (slugifyStr uuid s) := by
  by_cases h : s = ""
  · subst h
    simp [slugify, Json.truthy, slugifyStr]
  · simp [slugify, Json.truthy, h]

/-- On success, the id returned by `ensure_unique_id` is not in `existing`. -/
theorem ensure_unique_id_not_mem (uuid : String) (base : Json)
    (existing : List Json) (r : String)
    (h : ensure_unique_id uuid base existing = .ok r) :
    Json.s r ∉ existing := by
  unfold ensure_unique_id at h
  cases hs : slugify uuid base with
  | error e => rw [hs] at h; simp [Bind.bind, Except.bind] at h
  | ok slug =>
    rw [hs] at h
    simp only [Bind.bind, Except.bind] at h
    by_cases hmem : Json.s slug ∈ existing
    · rw [if_pos hmem] at h
      simp only [pure, Except.pure, Except.ok.injEq] at h
      obtain ⟨k, hk, hfree⟩ := exists_free_candidate slug existing 2
      obtain ⟨k2, _, heq, hfree2, _⟩ :=
        findIdx_finds_free slug existing (existing.length + 1) 2 ⟨k, by omega, hfree⟩
      rw [← h, heq]
      exact hfree2
    · rw [if_neg hmem] at h
      simp only [pure, Except.pure, Except.ok.injEq] at h
      rw [← h]
      exact hmem

theorem candidate_ne_empty (slug : String) (idx : Nat) : candidate slug idx ≠ "" := by
  intro hc
  have hlen := congrArg String.length hc
  have h1 : ("-" : String).length = 1 := rfl
  have h2 : ("" : String).length = 0 := rfl
  simp only [candidate, String.length_append] at hlen
  omega

theorem slugifyStr_ne_empty (uuid v : String) (huuid : uuid ≠ "") :
    slugifyStr uuid v ≠ "" := by
  simp only [slugifyStr]
  split
  · exact huuid
  · split
    · exact huuid
    · rename_i hne
      intro hc
      have hd : stripChars (fun c => c = '-')
          (collapseRuns false (List.filter slugKeep (pyLower (pyStrip v)).data))
          = ([] : List Char) := congrArg String.data hc
      rw [hd] at hne
      simp at hne

theorem slugify_ok_ne_empty (uuid : String) (v : Json) (r : String)
    (huuid : uuid ≠ "") (h : slugify uuid v = .ok r) : r ≠ "" := by
  unfold slugify at h
  split at h
  · cases h
    exact huuid
  · cases v with
    | s str =>
      cases h
      exact slugifyStr_ne_empty uuid str huuid
    | null => cases h
    | b x => cases h
    | i x => cases h
    | arr x => cases h
    | obj x => cases h

theorem ensure_unique_id_ok_ne_empty (uuid : String) (base : Json)
    (existing : List Json) (r : String) (huuid : uuid ≠ "")
    (h : ensure_unique_id uuid base existing = .ok r) : r ≠ "" := by
  unfold ensure_unique_id at h
  cases hs : slugify uuid base with
  | error e => rw [hs] at h; simp [Bind.bind, Except.bind] at h
  | ok slug =>
    rw [hs] at h
    simp only [Bind.bind, Except.bind] at h
    split at h
    · simp only [pure, Except.pure, Except.ok.injEq] at h
      rw [← h]
      exact candidate_ne_empty _ _
    · simp only [pure, Except.pure, Except.ok.injEq] at h
      rw [← h]
      exact slugify_ok_ne_empty uuid base slug huuid hs

theorem ensure_unique_id_s_eq (uuid base : String) (existing : List Json) :
    ensure_unique_id uuid (Json.s base) existing =
      .ok (if Json.s (slugifyStr uuid base) ∈ existing
        then candidate (slugifyStr uuid base)
          (findIdx (slugifyStr uuid base) existing 2 (existing.length + 1))
        else slugifyStr uuid base) := by
  unfold ensure_unique_id
  rw [slugify_s]
  by_cases hmem : Json.s (slugifyStr uuid base) ∈ existing
  · simp [Bind.bind, Except.bind, pure, Except.pure, hmem]
  · simp [Bind.bind, Except.bind, pure, Except.pure, hmem]

/-- C1: for every base string and every finite set `existing` of strings,
`ensure_unique_id(base, existing)` returns a string that is not a member of
`existing`. -/
theorem c1_ensure_unique_id_fresh (uuid base : String) (existing : List Json)
    (r : String) (h : ensure_unique_id uuid (Json.s base) existing = .ok r) :
    Json.s r ∉ existing :=
  ensure_unique_id_not_mem uuid (Json.s base) existing r h

theorem c1_ensure_unique_id_fresh_witness :
    Json.s "my-project-3" ∉ [Json.s "my-project", Json.s "my-project-2"] :=
  c1_ensure_unique_id_fresh "u" "My Project"
    [Json.s "my-project", Json.s "my-project-2"] "my-project-3" (by rfl)

/-- C6: `ensure_unique_id` terminates for every base string and finite
`existing`: it always returns a value, and when the slug collides the
candidate loop reaches an unused candidate `slug-(2+k)` after `k + 1 ≤
|existing| + 1` membership tests, all earlier candidates being used. -/
theorem c6_ensure_unique_id_terminates (uuid base slug : String)
    (existing : List Json) :
    (∃ r, ensure_unique_id uuid (Json.s base) existing = .ok r) ∧
    ∃ k, k ≤ existing.length ∧
      findIdx slug existing 2 (existing.length + 1) = 2 + k ∧
      Json.s (candidate slug (2 + k)) ∉ existing ∧
      ∀ j, j < k → Json.s (candidate slug (2 + j)) ∈ existing := by
  constructor
  · exact ⟨_, ensure_unique_id_s_eq uuid base existing⟩
  · obtain ⟨k, hk, hfree⟩ := exists_free_candidate slug existing 2
    obtain ⟨k2, hk2, heq, hfree2, hbefore⟩ :=
      findIdx_finds_free slug existing (existing.length + 1) 2 ⟨k, by omega, hfree⟩
    exact ⟨k2, by omega, heq, hfree2, hbefore⟩

/-! ### Python dict / iteration helpers shared by the stores -/

/-- `v.get(k, d)` on a value: dict lookup with default; calling `.get` on a
non-dict raises `AttributeError`. -/
def pyGetD (v : Json) (k : String) (d : Json) : Except PyErr Json :=
  match v with
  | .obj kvs => .ok ((objFind? kvs k).getD d)
  | _ => .error (.attributeError "get")

/-- `v[k]` subscription: `KeyError` for a missing key, `TypeError` when the
value is not a dict. -/
def pyGetItem (v : Json) (k : String) : Except PyErr Json :=
  match v with
  | .obj kvs =>
    match objFind? kvs k with
    | some x => .ok x
    | none => .error (.keyError k)
  | _ => .error (.typeError "subscript")

/-- Python iteration over a value: lists yield their elements, strings yield
one-character strings, dicts yield their keys; other values raise
`TypeError`. -/
def pyIter : Json → Except PyErr (List Json)
  | .arr xs => .ok xs
  | .s v => .ok (v.data.map (fun c => Json.s (String.mk [c])))
  | .obj kvs => .ok (kvs.map (fun kv => Json.s kv.1))
  | _ => .error (.typeError "not iterable")

/-- `set.add` semantics over the list model: append unless present; lists
and dicts are unhashable and raise `TypeError`. -/
def pySetAdd (st : List Json) (v : Json) : Except PyErr (List Json) :=
  if v.hashable then .ok (if v ∈ st then st else st ++ [v])
  else .error (.typeError "unhashable type")

/-! ### `PromptStore` (`lib/json_store/prompt_store.py`) -/

/-- `DEFAULT_PROMPTS` from `prompt_store.py`. -/
def DEFAULT_PROMPTS : List (String × Json) :=
  [("project_extra_instruction", Json.s ""),
   ("resume_extra_instruction", Json.s ""),
   ("cover_letter_extra_instruction", Json.s "")]

def promptKeys : List String := DEFAULT_PROMPTS.map Prod.fst

/-- `{**a, **b}`: start from `a` and apply each binding of `b` in order;
an overriding key keeps its original position, new keys are appended. -/
def mergeObjs (a b : List (String × Json)) : List (String × Json) :=
  b.foldl (fun acc kv => objSet acc kv.1 kv.2) a

/-- `PromptStore.get_prompts`: `{**DEFAULT_PROMPTS, **(data or {})}`.
Unpacking a truthy non-dict document raises `TypeError`. -/
def get_prompts (data : Json) : Except PyErr (List (String × Json)) :=
  if !data.truthy then .ok DEFAULT_PROMPTS
  else match data with
    | .obj kvs => .ok (mergeObjs DEFAULT_PROMPTS kvs)
    | _ => .error (.typeError "mapping unpack")

/-- The filter applied by `update_prompts` to each update entry:
`key in DEFAULT_PROMPTS and isinstance(value, str)`. -/
def promptAccepted (kv : String × Json) : Bool :=
  decide (kv.1 ∈ promptKeys) &&
    (match kv.2 with
     | .s _ => true
     | _ => false)

/-- The `for key, value in updates.items()` loop body of `update_prompts`. -/
def applyPromptUpdates (current : List (String × Json))
    (updates : List (String × Json)) : List (String × Json) :=
  updates.foldl
    (fun acc kv => if promptAccepted kv then objSet acc kv.1 kv.2 else acc)
    current

/-- `PromptStore.update_prompts`: merge the stored file with the defaults,
apply the accepted updates, write the result and return it.  The first
component is the list of documents written to the store file. -/
def update_prompts (data : Json) (updates : List (String × Json)) :
    List Json × Except PyErr (List (String × Json)) :=
  match get_prompts data with
  | .error e => ([], .error e)
  | .ok current =>
    let result := applyPromptUpdates current updates
    ([Json.obj result], .ok result)

theorem applyPromptUpdates_filter (updates : List (String × Json)) :
    ∀ current, applyPromptUpdates current updates
      = applyPromptUpdates current (updates.filter promptAccepted) := by
  induction updates with
  | nil => intro current; rfl
  | cons kv rest ih =>
    intro current
    by_cases h : promptAccepted kv
    · simp [applyPromptUpdates, List.filter_cons, h] at ih ⊢
      exact ih (objSet current kv.1 kv.2)
    · simp [applyPromptUpdates, List.filter_cons, h] at ih ⊢
      exact ih current

/-- C10: `update_prompts` ignores unknown keys and non-string values: its
result (both the returned prompts and the written file) equals the result
of applying only the entries whose key is one of the `DEFAULT_PROMPTS` keys
and whose value is a string. -/
theorem c10_update_prompts_filters (data : Json)
    (updates : List (String × Json)) :
    update_prompts data updates
      = update_prompts data (updates.filter promptAccepted) := by
  unfold update_prompts
  cases get_prompts data with
  | error e => rfl
  | ok current =>
    simp only []
    rw [applyPromptUpdates_filter updates current]

/-! ### `GenerationStore.list_items` (`lib/json_store/generation_store.py`) -/

/-- The summary dict built by `list_items` for one stored item (its keys are
fixed, so it is modelled as a record). -/
structure GenSummary where
  id : Json
  job_title : Json
  created_at : Json
  reasoning_effort : Json
  verbosity : Json
deriving DecidableEq, Repr

/-- One pass of the `for item in items` loop of `list_items`: `item["id"]`
raises on a missing key or a non-dict item; the other fields use `.get`. -/
def mkSummary (item : Json) : Except PyErr GenSummary := do
  let i ← pyGetItem item "id"
  let jt ← pyGetD item "job_title" (.s "")
  let ca ← pyGetD item "created_at" .null
  let re ← pyGetD item "reasoning_effort" .null
  let vb ← pyGetD item "verbosity" .null
  pure ⟨i, jt, ca, re, vb⟩

/-- CPython `<` on two sort keys: strings compare lexicographically by code
point, ints numerically; any other combination — in a generation store that
means a `None` from a missing `created_at` — raises `TypeError`. -/
def cmpKeysLt (a b : Json) : Except PyErr Bool :=
  match a, b with
  | .s x, .s y => .ok (decide (x < y))
  | .i x, .i y => .ok (decide (x < y))
  | _, _ => .error (.typeError "not supported between instances")

/-- Stable descending insertion: the incoming element `x` (later in the
original order) is placed before the first element whose key is strictly
smaller, so equal keys keep their original order — the guarantee CPython's
stable `sort(key=..., reverse=True)` gives.  A failing key comparison
propagates the `TypeError` the sort would raise. -/
def insertDesc (key : GenSummary → Json) (x : GenSummary) :
    List GenSummary → Except PyErr (List GenSummary)
  | [] => .ok [x]
  | y :: ys => do
    let lt ← cmpKeysLt (key y) (key x)
    if lt then pure (x :: y :: ys)
    else do
      let rest ← insertDesc key x ys
      pure (y :: rest)

/-- Stable descending sort by key (insertion sort; it agrees with CPython's
stable sort whenever all key comparisons succeed). -/
def sortDesc (key : GenSummary → Json) (l : List GenSummary) :
    Except PyErr (List GenSummary) :=
  l.foldlM (fun acc x => insertDesc key x acc) []

/-- The sort key `lambda x: x.get("created_at", "")`: the summary dict
always carries the `created_at` key (possibly `None`), so the default is
never taken. -/
def summarySortKey (s : GenSummary) : Json := s.created_at

/-- `GenerationStore.list_items`. -/
def list_items (data : Json) : Except PyErr (List GenSummary) := do
  let itemsVal ← pyGetD data "items" (.arr [])
  let items ← pyIter itemsVal
  let summaries ← items.mapM mkSummary
  sortDesc summarySortKey summaries

/-- The string sort key of a summary whose `created_at` is a string (the
only case in which sorting succeeds). -/
def summaryKeyStr (s : GenSummary) : String :=
  match s.created_at with
  | .s v => v
  | _ => ""

/-- `a` precedes `b` in non-increasing `created_at` order. -/
def summaryGE (a b : GenSummary) : Prop := summaryKeyStr b ≤ summaryKeyStr a

theorem summaryKeyStr_eq (s : GenSummary) (c : String)
    (h : s.created_at = Json.s c) : summaryKeyStr s = c := by
  unfold summaryKeyStr
  rw [h]

theorem insertDesc_spec (x : GenSummary) (cx : String)
    (hx : x.created_at = Json.s cx) :
    ∀ acc : List GenSummary,
      (∀ y ∈ acc, ∃ c, y.created_at = Json.s c) →
      List.Pairwise summaryGE acc →
      ∃ res, insertDesc summarySortKey x acc = .ok res ∧
        res.Perm (x :: acc) ∧ List.Pairwise summaryGE res := by
  intro acc
  induction acc with
  | nil =>
    intro _ _
    exact ⟨[x], rfl, List.Perm.refl _, by simp⟩
  | cons y ys ih =>
    intro hstr hsorted
    obtain ⟨cy, hy⟩ := hstr y (List.mem_cons_self y ys)
    have hcmp : cmpKeysLt (summarySortKey y) (summarySortKey x)
        = .ok (decide (cy < cx)) := by
      unfold summarySortKey cmpKeysLt
      rw [hy, hx]
    by_cases hlt : cy < cx
    · refine ⟨x :: y :: ys, ?_, List.Perm.refl _, ?_⟩
      · unfold insertDesc
        rw [hcmp]
        simp [Bind.bind, Except.bind, hlt, pure, Except.pure]
      · refine List.Pairwise.cons ?_ hsorted
        intro z hz
        rcases List.mem_cons.mp hz with rfl | hz
        · unfold summaryGE
          rw [summaryKeyStr_eq x cx hx, summaryKeyStr_eq z cy hy]
          exact le_of_lt hlt
        · have h1 : summaryGE y z := (List.pairwise_cons.mp hsorted).1 z hz
          unfold summaryGE at h1 ⊢
          rw [summaryKeyStr_eq y cy hy] at h1
          rw [summaryKeyStr_eq x cx hx]
          exact le_trans h1 (le_of_lt hlt)
    · obtain ⟨res, hres, hperm, hpair⟩ :=
        ih (fun z hz => hstr z (List.mem_cons_of_mem y hz))
          (List.pairwise_cons.mp hsorted).2
      refine ⟨y :: res, ?_, ?_, ?_⟩
      · unfold insertDesc
        rw [hcmp]
        simp only [Bind.bind, Except.bind, decide_eq_true_eq, hlt, if_false,
          ite_false, hres, pure, Except.pure]
      · exact (List.Perm.cons y hperm).trans (List.Perm.swap x y ys)
      · refine List.Pairwise.cons ?_ hpair
        intro z hz
        have hz2 : z ∈ x :: ys := hperm.mem_iff.mp hz
        rcases List.mem_cons.mp hz2 with rfl | hz3
        · unfold summaryGE
          rw [summaryKeyStr_eq z cx hx, summaryKeyStr_eq y cy hy]
          exact le_of_not_lt hlt
        · exact (List.pairwise_cons.mp hsorted).1 z hz3

theorem sortDesc_foldl_spec :
    ∀ (rest acc : List GenSummary),
      (∀ s ∈ rest, ∃ c, s.created_at = Json.s c) →
      (∀ s ∈ acc, ∃ c, s.created_at = Json.s c) →
      List.Pairwise summaryGE acc →
      ∃ l, List.foldlM (fun acc x => insertDesc summarySortKey x acc) acc rest
          = .ok l ∧ l.Perm (acc ++ rest) ∧ List.Pairwise summaryGE l := by
  intro rest
  induction rest with
  | nil =>
    intro acc _ _ hsorted
    exact ⟨acc, rfl, by simp, hsorted⟩
  | cons x rest ih =>
    intro acc hrest hacc hsorted
    obtain ⟨cx, hx⟩ := hrest x (List.mem_cons_self x rest)
    obtain ⟨res, hres, hperm, hpair⟩ := insertDesc_spec x cx hx acc hacc hsorted
    obtain ⟨l, hl, hlperm, hlpair⟩ := ih res
      (fun s hs => hrest s (List.mem_cons_of_mem x hs))
      (fun s hs => by
        rcases List.mem_cons.mp (hperm.mem_iff.mp hs) with rfl | hs2
        · exact ⟨cx, hx⟩
        · exact hacc s hs2)
      hpair
    refine ⟨l, ?_, ?_, hlpair⟩
    · rw [List.foldlM_cons, hres]
      simpa [Bind.bind, Except.bind] using hl
    · exact hlperm.trans ((hperm.append_right rest).trans List.perm_middle.symm)

/-- C9 counterexample: in a store with two items whose `created_at` is
missing, `list_items` does not return a summary list at all — the summaries
carry `created_at = None` (the `.get(..., "")` default is dead because the
key is always present), and sorting compares `None` with `None`, raising
`TypeError` instead of treating the missing value as the empty string. -/
theorem c9_counterexample_missing_created_at :
    list_items (Json.obj [("items", Json.arr
      [Json.obj [("id", Json.s "a")], Json.obj [("id", Json.s "b")]])])
      = .error (.typeError "not supported between instances") := rfl

theorem mapM_mkSummary_length :
    ∀ (items : List Json) (summaries : List GenSummary),
      items.mapM mkSummary = .ok summaries → summaries.length = items.length := by
  intro items
  induction items with
  | nil =>
    intro summaries h
    simp only [List.mapM_nil, pure, Except.pure, Except.ok.injEq] at h
    rw [← h]
    rfl
  | cons x xs ih =>
    intro summaries h
    rw [List.mapM_cons] at h
    cases hx : mkSummary x with
    | error e => rw [hx] at h; simp [Bind.bind, Except.bind] at h
    | ok s =>
      rw [hx] at h
      simp only [Bind.bind, Except.bind] at h
      cases hxs : xs.mapM mkSummary with
      | error e => rw [hxs] at h; simp [Except.bind] at h
      | ok ss =>
        rw [hxs] at h
        simp only [pure, Except.pure, Except.ok.injEq] at h
        rw [← h]
        simp [ih ss hxs]

/-- C9 (amended): for every store whose items all map to summaries with a
string `created_at`, `list_items` returns exactly one summary per stored
item (a permutation of the per-item summaries, hence of equal length),
sorted in non-increasing order of `created_at`.  (When some item lacks
`created_at`, the summary carries `None` — not the empty string — and the
sort raises `TypeError` as soon as it compares that key.) -/
theorem c9_list_items_sorted (data : Json) (items : List Json)
    (summaries : List GenSummary)
    (hitems : pyGetD data "items" (Json.arr []) = .ok (Json.arr items))
    (hmap : items.mapM mkSummary = .ok summaries)
    (hstr : ∀ s ∈ summaries, ∃ c, s.created_at = Json.s c) :
    ∃ l, list_items data = .ok l ∧ l.Perm summaries ∧
      l.length = items.length ∧ List.Pairwise summaryGE l := by
  obtain ⟨l, hl, hperm, hpair⟩ :=
    sortDesc_foldl_spec summaries [] hstr (by simp) (by simp)
  refine ⟨l, ?_, by simpa using hperm, ?_, hpair⟩
  · unfold list_items
    rw [hitems]
    simp only [Bind.bind, Except.bind, pyIter, hmap]
    exact hl
  · have h1 := (by simpa using hperm : l.Perm summaries).length_eq
    rw [h1, mapM_mkSummary_length items summaries hmap]

theorem c9_list_items_sorted_witness :
    ∃ l, list_items (Json.obj [("items", Json.arr
        [Json.obj [("id", Json.s "a"), ("created_at", Json.s "2024")],
         Json.obj [("id", Json.s "b"), ("created_at", Json.s "2025")]])])
      = .ok l ∧
      l.Perm [⟨Json.s "a", Json.s "", Json.s "2024", Json.null, Json.null⟩,
        ⟨Json.s "b", Json.s "", Json.s "2025", Json.null, Json.null⟩] ∧
      l.length = 2 ∧ List.Pairwise summaryGE l := by
  have h := c9_list_items_sorted
    (Json.obj [("items", Json.arr
      [Json.obj [("id", Json.s "a"), ("created_at", Json.s "2024")],
       Json.obj [("id", Json.s "b"), ("created_at", Json.s "2025")]])])
    [Json.obj [("id", Json.s "a"), ("created_at", Json.s "2024")],
     Json.obj [("id", Json.s "b"), ("created_at", Json.s "2025")]]
    [⟨Json.s "a", Json.s "", Json.s "2024", Json.null, Json.null⟩,
     ⟨Json.s "b", Json.s "", Json.s "2025", Json.null, Json.null⟩]
    rfl rfl ?_
  · simpa using h
  · intro s hs
    rcases List.mem_cons.mp hs with rfl | hs2
    · exact ⟨"2024", rfl⟩
    · rcases List.mem_cons.mp hs2 with rfl | hs3
      · exact ⟨"2025", rfl⟩
      · cases hs3

/-! ### `MasterStore` operations (`lib/json_store/master_store.py`) -/

/-- Outcome of one store operation: the documents written to the store file
(in order) together with the Python return value or exception. -/
abbrev OpResult (α : Type) := List Json × Except PyErr α

/-- All `MasterStore` mutators perform their single `self._write(data)` at
the end of the success path: package the pure read/modify computation so
that an exception writes nothing. -/
def wrapWrite {α : Type} (r : Except PyErr (Json × α)) : OpResult α :=
  match r with
  | .error e => ([], .error e)
  | .ok (d, v) => ([d], .ok v)

/-- `d[k] = v` on the document. -/
def pySetItem (v : Json) (k : String) (x : Json) : Except PyErr Json :=
  match v with
  | .obj kvs => .ok (.obj (objSet kvs k x))
  | _ => .error (.typeError "item assignment")

/-- `x in container`: lists test element equality, dicts test key
membership, strings test substring containment; other values raise
`TypeError`. -/
def pyContains (container : Json) (x : Json) : Except PyErr Bool :=
  match container with
  | .arr xs => .ok (decide (x ∈ xs))
  | .obj kvs =>
    match x with
    | .s k => .ok (decide (k ∈ kvs.map Prod.fst))
    | _ => if x.hashable then .ok false else .error (.typeError "unhashable type")
  | .s hay =>
    match x with
    | .s needle => .ok (decide (needle.data <:+: hay.data))
    | _ => .error (.typeError "requires string as left operand")
  | _ => .error (.typeError "argument is not iterable")

/-- `MasterStore._normalize_bullets` on a list of values. -/
def normalizeBulletList (xs : List Json) : List String :=
  (xs.map (fun v => pyStrip (pyStr v))).filter (fun t => t ≠ "")

/-- `MasterStore._normalize_bullets`. -/
def normalize_bullets (values : Json) : Except PyErr (List String) :=
  match values with
  | .null => .ok []
  | .s v => .ok (((pySplitlines v).map pyStrip).filter (fun p => p ≠ ""))
  | other => do
    let items ← pyIter other
    pure (normalizeBulletList items)

/-- `list(dict.fromkeys(values))`: iterate and deduplicate keeping first
occurrences; unhashable elements raise `TypeError`. -/
def dictFromKeys (values : Json) : Except PyErr (List Json) := do
  let xs ← pyIter values
  xs.foldlM (fun acc x =>
    if x.hashable then pure (if x ∈ acc then acc else acc ++ [x])
    else .error (.typeError "unhashable type")) []

/-- The scan inside `_find_project_index` / `_find_experience_index`:
`enumerate` the elements, asking each for `.get("id")` (a non-dict element
raises `AttributeError`). -/
def findIndexById : List Json → String → Nat → Except PyErr (Option Nat)
  | [], _, _ => .ok none
  | x :: xs, wanted, idx => do
    let v ← pyGetD x "id" .null
    if v = Json.s wanted then pure (some idx)
    else findIndexById xs wanted (idx + 1)

/-- `MasterStore._find_project_index`. -/
def find_project_index (data : Json) (project_id : String) :
    Except PyErr (Option Nat) := do
  let projectsVal ← pyGetD data "projects" (.arr [])
  let projects ← pyIter projectsVal
  findIndexById projects project_id 0

/-- `MasterStore._find_experience_index`. -/
def find_experience_index (data : Json) (experience_id : String) :
    Except PyErr (Option Nat) := do
  let expVal ← pyGetD data "experience" (.arr [])
  let items ← pyIter expVal
  findIndexById items experience_id 0

/-- The comprehension `[p for p in xs if p.get("id") != wanted]` used by the
delete operations. -/
def filterOutId : List Json → String → Except PyErr (List Json)
  | [], _ => .ok []
  | x :: xs, wanted => do
    let v ← pyGetD x "id" .null
    let rest ← filterOutId xs wanted
    if v = Json.s wanted then pure rest else pure (x :: rest)

/-- The set comprehension `{p.get("id") for p in items if p.get("id")}`. -/
def collectTruthyIds (xs : List Json) : Except PyErr (List Json) :=
  xs.foldlM (fun acc x => do
    let v ← pyGetD x "id" .null
    if v.truthy then pySetAdd acc v else pure acc) []

/-- A JSON request body for `create_project` / `update_project`.  Fields the
handler reads with `payload["k"].strip()` are typed as strings (any other
type raises before the entity is looked at or written, outside the claims
under study); fields fed to `_normalize_bullets` or `dict.fromkeys` carry
arbitrary values. -/
structure ProjectPayload where
  name : Option String
  year : Option Json
  description_short : Option String
  bullets : Option Json
  skills_used : Option Json
  linked_experience : Option Json

/-- The `if "k" in payload: project["k"] = ...` cascade of
`update_project`, applied to the found project dict. -/
def applyProjectPatch (kvs0 : List (String × Json)) (payload : ProjectPayload) :
    Except PyErr (List (String × Json)) := do
  let kvs1 := match payload.name with
    | some s => objSet kvs0 "name" (.s (pyStrip s))
    | none => kvs0
  let kvs2 := match payload.year with
    | some y => objSet kvs1 "year" (.s (pyStrip (pyStr y)))
    | none => kvs1
  let kvs3 := match payload.description_short with
    | some s => objSet kvs2 "description_short" (.s (pyStrip s))
    | none => kvs2
  let kvs4 ← match payload.bullets with
    | some b => do
      let bl ← normalize_bullets b
      pure (objSet kvs3 "bullets" (.arr (bl.map Json.s)))
    | none => pure kvs3
  let kvs5 ← match payload.skills_used with
    | some v => do
      let l ← dictFromKeys v
      pure (objSet kvs4 "skills_used" (.arr l))
    | none => pure kvs4
  let kvs6 ← match payload.linked_experience with
    | some v => do
      let l ← dictFromKeys v
      pure (objSet kvs5 "linked_experience" (.arr l))
    | none => pure kvs5
  pure kvs6

/-- `MasterStore.update_project`. -/
def update_project (data : Json) (project_id : String)
    (payload : ProjectPayload) : OpResult Json :=
  wrapWrite (do
    let idxOpt ← find_project_index data project_id
    match idxOpt with
    | none =>
      .error (.keyError ("Project \x27" ++ project_id ++ "\x27 not found"))
    | some idx => do
      let projectsVal ← pyGetItem data "projects"
      let projects ← pyIter projectsVal
      match projects[idx]? with
      | none => .error (.keyError "list index out of range")
      | some p =>
        match p with
        | .obj kvs => do
          let kvs2 ← applyProjectPatch kvs payload
          let newData ← pySetItem data "projects"
            (.arr (projects.set idx (.obj kvs2)))
          pure (newData, Json.obj kvs2)
        | _ => .error (.attributeError "get"))

/-- `MasterStore.delete_project`. -/
def delete_project (data : Json) (project_id : String) : OpResult Json :=
  wrapWrite (do
    let projectsVal ← pyGetD data "projects" (.arr [])
    let projects ← pyIter projectsVal
    let filtered ← filterOutId projects project_id
    if filtered.length = projects.length then
      .error (.keyError ("Project \x27" ++ project_id ++ "\x27 not found"))
    else do
      let newData ← pySetItem data "projects" (.arr filtered)
      pure (newData, Json.obj [("deleted", Json.s project_id)]))

/-- `MasterStore.create_project`.  `uuid` models the `uuid.uuid4()` fallback
inside `slugify` for this call. -/
def create_project (uuid : String) (data : Json) (payload : ProjectPayload) :
    OpResult Json :=
  wrapWrite (do
    let projectsVal ← pyGetD data "projects" (.arr [])
    let projects ← pyIter projectsVal
    let existing_ids ← collectTruthyIds projects
    let project_id ← ensure_unique_id uuid
      (Json.s (payload.name.getD "project")) existing_ids
    let bullets ← normalize_bullets (payload.bullets.getD (.arr []))
    let skills ← dictFromKeys (payload.skills_used.getD (.arr []))
    let linked ← dictFromKeys (payload.linked_experience.getD (.arr []))
    let project := Json.obj [
      ("id", Json.s project_id),
      ("name", Json.s (pyStrip (payload.name.getD ""))),
      ("year", Json.s (pyStrip (pyStr (payload.year.getD (.s ""))))),
      ("description_short",
        Json.s (pyStrip (payload.description_short.getD ""))),
      ("bullets", Json.arr (bullets.map Json.s)),
      ("skills_used", Json.arr skills),
      ("linked_experience", Json.arr linked)]
    match projectsVal with
    | .arr ps => do
      let newData ← pySetItem data "projects" (.arr (ps ++ [project]))
      pure (newData, project)
    | _ => .error (.attributeError "append"))

/-- `data.get("skills", {}).get(category)` shared by the skill mutators. -/
def getSkillCategory (data : Json) (category : String) :
    Except PyErr (Option Json) := do
  let skillsVal ← pyGetD data "skills" (.obj [])
  match skillsVal with
  | .obj kvs => pure (objFind? kvs category)
  | _ => .error (.attributeError "get")

/-- The `for entry in entries` loop of `update_skill`: find the entry whose
`id` equals `skill_id`, set its stripped label in place, and report the new
entries list together with the updated entry. -/
def updateSkillLoop (label : String) (wanted : String) :
    List Json → Except PyErr (Option (List Json × Json))
  | [] => .ok none
  | e :: rest => do
    let v ← pyGetD e "id" .null
    if v = Json.s wanted then
      match e with
      | .obj kvs =>
        pure (some ((Json.obj (objSet kvs "label" (.s (pyStrip label)))) :: rest,
          Json.obj (objSet kvs "label" (.s (pyStrip label)))))
      | _ => .error (.typeError "item assignment")
    else do
      let r ← updateSkillLoop label wanted rest
      match r with
      | none => pure none
      | some (rest2, entry) => pure (some (e :: rest2, entry))

/-- `MasterStore.update_skill`. -/
def update_skill (data : Json) (category : String) (skill_id : String)
    (label : String) : OpResult Json :=
  wrapWrite (do
    let entriesOpt ← getSkillCategory data category
    match entriesOpt with
    | none =>
      .error (.keyError ("Category \x27" ++ category ++ "\x27 not found"))
    | some entriesVal => do
      let entries ← pyIter entriesVal
      let r ← updateSkillLoop label skill_id entries
      match r with
      | none =>
        .error (.keyError ("Skill \x27" ++ skill_id ++ "\x27 not found in \x27"
          ++ category ++ "\x27"))
      | some (entries2, entry) => do
        let skillsVal ← pyGetItem data "skills"
        let newSkills ← pySetItem skillsVal category (.arr entries2)
        let newData ← pySetItem data "skills" newSkills
        pure (newData, entry))

/-- The per-project reference cleanup loop body of `delete_skill` /
`delete_experience`: when `wanted` occurs in `project.get(field, [])`, the
project's `field` list is rebuilt without it. -/
def cleanupOneProject (field : String) (wanted : String) (p : Json) :
    Except PyErr Json := do
  let cur ← pyGetD p field (.arr [])
  let isIn ← pyContains cur (Json.s wanted)
  if isIn then do
    let lst ← pyGetItem p field
    let items ← pyIter lst
    let filtered := items.filter (fun x => x ≠ Json.s wanted)
    match p with
    | .obj kvs => pure (.obj (objSet kvs field (.arr filtered)))
    | _ => .error (.typeError "item assignment")
  else pure p

/-- The `for project in data.get("projects", []):` cleanup loop.  Python
mutates the project dicts in place inside the stored list, so the list is
rebuilt only when `data["projects"]` actually is a list; iterating a string
or a dict yields fresh strings whose `.get` raises (or nothing, when
empty, leaving the document unchanged). -/
def cleanupProjects (data : Json) (field : String) (wanted : String) :
    Except PyErr Json := do
  let pv ← pyGetD data "projects" (.arr [])
  match pv with
  | .arr ps => do
    let ps2 ← ps.mapM (cleanupOneProject field wanted)
    match data with
    | .obj kvs =>
      match objFind? kvs "projects" with
      | some _ => pure (.obj (objSet kvs "projects" (.arr ps2)))
      | none => pure data
    | _ => .error (.attributeError "get")
  | other => do
    let items ← pyIter other
    let _ ← items.mapM (cleanupOneProject field wanted)
    pure data

/-- `MasterStore.delete_skill`. -/
def delete_skill (data : Json) (category : String) (skill_id : String) :
    OpResult Json :=
  wrapWrite (do
    let entriesOpt ← getSkillCategory data category
    match entriesOpt with
    | none =>
      .error (.keyError ("Category \x27" ++ category ++ "\x27 not found"))
    | some entriesVal => do
      let entries ← pyIter entriesVal
      let filtered ← filterOutId entries skill_id
      if filtered.length = entries.length then
        .error (.keyError ("Skill \x27" ++ skill_id ++ "\x27 not found in \x27"
          ++ category ++ "\x27"))
      else do
        let skillsVal ← pyGetItem data "skills"
        let newSkills ← pySetItem skillsVal category (.arr filtered)
        let d1 ← pySetItem data "skills" newSkills
        let d2 ← cleanupProjects d1 "skills_used" skill_id
        pure (d2, Json.obj [("deleted", Json.s skill_id),
          ("category", Json.s category)]))

/-- A JSON request body for `update_experience` (string-typed fields as in
`ProjectPayload`). -/
structure ExperiencePayload where
  company : Option String
  title : Option String
  dates : Option String
  bullets : Option Json

/-- The `if "k" in payload` cascade of `update_experience`. -/
def applyExperiencePatch (kvs0 : List (String × Json))
    (payload : ExperiencePayload) : Except PyErr (List (String × Json)) := do
  let kvs1 := match payload.company with
    | some s => objSet kvs0 "company" (.s (pyStrip s))
    | none => kvs0
  let kvs2 := match payload.title with
    | some s => objSet kvs1 "title" (.s (pyStrip s))
    | none => kvs1
  let kvs3 := match payload.dates with
    | some s => objSet kvs2 "dates" (.s (pyStrip s))
    | none => kvs2
  let kvs4 ← match payload.bullets with
    | some b => do
      let bl ← normalize_bullets b
      pure (objSet kvs3 "bullets" (.arr (bl.map Json.s)))
    | none => pure kvs3
  pure kvs4

/-- `MasterStore.update_experience`. -/
def update_experience (data : Json) (experience_id : String)
    (payload : ExperiencePayload) : OpResult Json :=
  wrapWrite (do
    let idxOpt ← find_experience_index data experience_id
    match idxOpt with
    | none =>
      .error (.keyError ("Experience \x27" ++ experience_id ++ "\x27 not found"))
    | some idx => do
      let expVal ← pyGetItem data "experience"
      let items ← pyIter expVal
      match items[idx]? with
      | none => .error (.keyError "list index out of range")
      | some p =>
        match p with
        | .obj kvs => do
          let kvs2 ← applyExperiencePatch kvs payload
          let newData ← pySetItem data "experience"
            (.arr (items.set idx (.obj kvs2)))
          pure (newData, Json.obj kvs2)
        | _ => .error (.attributeError "get"))

/-- `MasterStore.delete_experience`. -/
def delete_experience (data : Json) (experience_id : String) : OpResult Json :=
  wrapWrite (do
    let expVal ← pyGetD data "experience" (.arr [])
    let items ← pyIter expVal
    let filtered ← filterOutId items experience_id
    if filtered.length = items.length then
      .error (.keyError ("Experience \x27" ++ experience_id ++ "\x27 not found"))
    else do
      let d1 ← pySetItem data "experience" (.arr filtered)
      let d2 ← cleanupProjects d1 "linked_experience" experience_id
      pure (d2, Json.obj [("deleted", Json.s experience_id)]))

/-- C4: every mutating `MasterStore` operation that targets a missing
entity — `update_project`/`delete_project` with an unknown project id,
`update_skill`/`delete_skill` with an unknown category or skill id,
`update_experience`/`delete_experience` with an unknown experience id —
raises `KeyError` and performs no write (the write list is empty, so the
stored document is untouched).  "Unknown" is expressed exactly as the code
tests it: the index scan returns `None`, or the filtering comprehension
removes nothing, or the category lookup returns `None`, or the entry scan
falls through. -/
theorem c4_missing_entity_keyerror
    (d1 d2 d3 d4 d5 d6 d7 d8 : Json)
    (pid1 pid2 sid3 cat3 cat4 sid4 cat5 cat6 sid6 eid7 eid8 lab : String)
    (pp : ProjectPayload) (ep : ExperiencePayload)
    (pv2 : Json) (ps2 : List Json) (ev4 : Json) (es4 : List Json)
    (ev6 : Json) (es6 : List Json) (xv8 : Json) (xs8 : List Json) :
    (find_project_index d1 pid1 = .ok none →
      update_project d1 pid1 pp
        = ([], .error (.keyError ("Project \x27" ++ pid1 ++ "\x27 not found")))) ∧
    (pyGetD d2 "projects" (Json.arr []) = .ok pv2 → pyIter pv2 = .ok ps2 →
      filterOutId ps2 pid2 = .ok ps2 →
      delete_project d2 pid2
        = ([], .error (.keyError ("Project \x27" ++ pid2 ++ "\x27 not found")))) ∧
    (getSkillCategory d3 cat3 = .ok none →
      update_skill d3 cat3 sid3 lab
        = ([], .error (.keyError ("Category \x27" ++ cat3 ++ "\x27 not found")))) ∧
    (getSkillCategory d4 cat4 = .ok (some ev4) → pyIter ev4 = .ok es4 →
      updateSkillLoop lab sid4 es4 = .ok none →
      update_skill d4 cat4 sid4 lab
        = ([], .error (.keyError ("Skill \x27" ++ sid4 ++ "\x27 not found in \x27"
            ++ cat4 ++ "\x27")))) ∧
    (getSkillCategory d5 cat5 = .ok none →
      delete_skill d5 cat5 sid4
        = ([], .error (.keyError ("Category \x27" ++ cat5 ++ "\x27 not found")))) ∧
    (getSkillCategory d6 cat6 = .ok (some ev6) → pyIter ev6 = .ok es6 →
      filterOutId es6 sid6 = .ok es6 →
      delete_skill d6 cat6 sid6
        = ([], .error (.keyError ("Skill \x27" ++ sid6 ++ "\x27 not found in \x27"
            ++ cat6 ++ "\x27")))) ∧
    (find_experience_index d7 eid7 = .ok none →
      update_experience d7 eid7 ep
        = ([], .error (.keyError ("Experience \x27" ++ eid7 ++ "\x27 not found")))) ∧
    (pyGetD d8 "experience" (Json.arr []) = .ok xv8 → pyIter xv8 = .ok xs8 →
      filterOutId xs8 eid8 = .ok xs8 →
      delete_experience d8 eid8
        = ([], .error (.keyError ("Experience \x27" ++ eid8 ++ "\x27 not found")))) := by
  refine ⟨?_, ?_, ?_, ?_, ?_, ?_, ?_, ?_⟩
  · intro h
    unfold update_project
    rw [h]
    rfl
  · intro h1 h2 h3
    unfold delete_project
    rw [h1]
    simp only [Bind.bind, Except.bind]
    rw [h2]
    simp only [Except.bind]
    rw [h3]
    simp [wrapWrite]
  · intro h
    unfold update_skill
    rw [h]
    rfl
  · intro h1 h2 h3
    unfold update_skill
    rw [h1]
    simp only [Bind.bind, Except.bind]
    rw [h2]
    simp only [Except.bind]
    rw [h3]
    rfl
  · intro h
    unfold delete_skill
    rw [h]
    rfl
  · intro h1 h2 h3
    unfold delete_skill
    rw [h1]
    simp only [Bind.bind, Except.bind]
    rw [h2]
    simp only [Except.bind]
    rw [h3]
    simp [wrapWrite]
  · intro h
    unfold update_experience
    rw [h]
    rfl
  · intro h1 h2 h3
    unfold delete_experience
    rw [h1]
    simp only [Bind.bind, Except.bind]
    rw [h2]
    simp only [Except.bind]
    rw [h3]
    simp [wrapWrite]

theorem c4_missing_entity_keyerror_witness :
    (update_project (Json.obj []) "p" ⟨none, none, none, none, none, none⟩
      = ([], .error (.keyError "Project \x27p\x27 not found"))) ∧
    (delete_project (Json.obj []) "p"
      = ([], .error (.keyError "Project \x27p\x27 not found"))) ∧
    (update_skill (Json.obj []) "langs" "py" "L"
      = ([], .error (.keyError "Category \x27langs\x27 not found"))) ∧
    (update_skill (Json.obj [("skills", Json.obj [("langs", Json.arr [])])])
        "langs" "py" "L"
      = ([], .error (.keyError "Skill \x27py\x27 not found in \x27langs\x27"))) ∧
    (delete_skill (Json.obj []) "langs" "py"
      = ([], .error (.keyError "Category \x27langs\x27 not found"))) ∧
    (delete_skill (Json.obj [("skills", Json.obj [("langs", Json.arr [])])])
        "langs" "py"
      = ([], .error (.keyError "Skill \x27py\x27 not found in \x27langs\x27"))) ∧
    (update_experience (Json.obj []) "e" ⟨none, none, none, none⟩
      = ([], .error (.keyError "Experience \x27e\x27 not found"))) ∧
    (delete_experience (Json.obj []) "e"
      = ([], .error (.keyError "Experience \x27e\x27 not found"))) := by
  have h := c4_missing_entity_keyerror
    (Json.obj []) (Json.obj []) (Json.obj [])
    (Json.obj [("skills", Json.obj [("langs", Json.arr [])])])
    (Json.obj []) (Json.obj [("skills", Json.obj [("langs", Json.arr [])])])
    (Json.obj []) (Json.obj [])
    "p" "p" "py" "langs" "langs" "py" "langs" "langs" "py" "e" "e" "L"
    ⟨none, none, none, none, none, none⟩ ⟨none, none, none, none⟩
    (Json.arr []) [] (Json.arr []) [] (Json.arr []) [] (Json.arr []) []
  exact ⟨h.1 rfl, h.2.1 rfl rfl rfl, h.2.2.1 rfl, h.2.2.2.1 rfl rfl rfl,
    h.2.2.2.2.1 rfl, h.2.2.2.2.2.1 rfl rfl rfl, h.2.2.2.2.2.2.1 rfl,
    h.2.2.2.2.2.2.2 rfl rfl rfl⟩

/-! ### C2: the `JsonFile` mutex and read/modify/write atomicity

`JsonFile.read` and `JsonFile.write` each acquire `self._lock` for the
duration of the single call, so each call is one atomic event; but a store
operation such as `MasterStore.update_project` performs `read()` and
`write()` as two separate critical sections.  The model below executes two
concurrent read/modify/write operations at exactly that granularity. -/

/-- One mutex-protected `JsonFile` call issued by one of two concurrent
store operations (`tid` names the thread). -/
inductive FileEv where
  | read (tid : Bool)
  | write (tid : Bool)
deriving DecidableEq, Repr

/-- All interleavings of two event sequences (each thread's program order
is preserved). -/
def merges : List FileEv → List FileEv → List (List FileEv)
  | [], ys => [ys]
  | x :: xs, [] => [x :: xs]
  | x :: xs, y :: ys =>
    (merges xs (y :: ys)).map (fun l => x :: l) ++
    (merges (x :: xs) ys).map (fun l => y :: l)
termination_by xs ys => xs.length + ys.length

/-- The event sequence of one read/modify/write store operation. -/
def rmwProg (tid : Bool) : List FileEv := [.read tid, .write tid]

/-- Shared file plus each thread's in-memory snapshot. -/
structure ConcState where
  stored : Json
  snapA : Option Json
  snapB : Option Json

/-- Execute one atomic event: `read` snapshots the stored document under
the lock; `write` stores the thread's modification applied to its
snapshot under the lock (thread `false` applies `f`, thread `true` `g`). -/
def stepEv (f g : Json → Json) (st : ConcState) : FileEv → ConcState
  | .read false => { st with snapA := some st.stored }
  | .read true => { st with snapB := some st.stored }
  | .write false => { st with stored := f (st.snapA.getD st.stored) }
  | .write true => { st with stored := g (st.snapB.getD st.stored) }

/-- The stored document after executing a sequence of events. -/
def runStored (f g : Json → Json) (evs : List FileEv) (init : Json) : Json :=
  (evs.foldl (stepEv f g) ⟨init, none, none⟩).stored

/-- The document a store operation leaves in the file (its last write, or
the unchanged input when it wrote nothing). -/
def docAfter (r : OpResult Json) (d : Json) : Json := r.1.getLast?.getD d

/-- `MasterStore.update_project` renaming project `p`, as a
whole-document transformation (the modify step of one thread). -/
def renameOp (d : Json) : Json :=
  docAfter (update_project d "p" ⟨some "x", none, none, none, none, none⟩) d

/-- `MasterStore.update_project` changing the year of project `p`, as a
whole-document transformation (the modify step of the other thread). -/
def yearOp (d : Json) : Json :=
  docAfter (update_project d "p"
    ⟨none, some (Json.s "2020"), none, none, none, none⟩) d

/-- A one-project master document. -/
def demoDoc : Json :=
  Json.obj [("projects", Json.arr [Json.obj
    [("id", Json.s "p"), ("name", Json.s "a"), ("year", Json.s "")]])]

/-- C2 counterexample: two concurrent `update_project` calls — one renaming
project `p`, one changing its year — interleaved as read/read/write/write
(an interleaving the per-call mutex permits) leave a document that matches
neither serial order: the rename is lost.  The read/modify/write sequence
of a store operation is therefore not atomic. -/
theorem c2_counterexample_lost_update :
    [FileEv.read false, FileEv.read true, FileEv.write false, FileEv.write true]
      ∈ merges (rmwProg false) (rmwProg true) ∧
    runStored renameOp yearOp
        [FileEv.read false, FileEv.read true, FileEv.write false,
          FileEv.write true] demoDoc
      ∉ [yearOp (renameOp demoDoc), renameOp (yearOp demoDoc)] := by
  constructor
  · simp [merges, rmwProg]
  · decide

/-- C2 (amended): the per-`JsonFile` mutex makes each individual `read` and
`write` call atomic, so a concurrent reader — modelled as observing the
stored document after any prefix of the interleaving — only ever sees a
complete document: the initial one or the result of a completed
modification, never a partial state.  The read/modify/write sequence of a
whole store operation, however, is not atomic: the final outcome can also
be `f init` or `g init`, i.e. one update can be lost. -/
theorem c2_reads_see_whole_documents (f g : Json → Json) (init : Json)
    (sched : List FileEv)
    (hs : sched ∈ merges (rmwProg false) (rmwProg true)) :
    ∀ n, runStored f g (sched.take n) init
      ∈ [init, f init, g init, f (g init), g (f init)] := by
  simp [rmwProg, merges] at hs
  rcases hs with rfl | rfl | rfl | rfl | rfl | rfl <;>
    (intro n
     rcases n with _ | _ | _ | _ | n <;>
       simp [runStored, stepEv, List.take, List.foldl])

theorem c2_reads_see_whole_documents_witness :
    runStored renameOp yearOp
        ([FileEv.read false, FileEv.write false, FileEv.read true,
          FileEv.write true].take 3) demoDoc
      ∈ [demoDoc, renameOp demoDoc, yearOp demoDoc,
         renameOp (yearOp demoDoc), yearOp (renameOp demoDoc)] :=
  c2_reads_see_whole_documents renameOp yearOp demoDoc
    [FileEv.read false, FileEv.write false, FileEv.read true, FileEv.write true]
    (by simp [merges, rmwProg]) 3

/-! ### Association list and monadic inversion lemmas -/

theorem objFind?_objSet_self (kvs : List (String × Json)) (k : String)
    (v : Json) : objFind? (objSet kvs k v) k = some v := by
  induction kvs with
  | nil => simp [objSet, objFind?]
  | cons kv rest ih =>
    obtain ⟨k0, v0⟩ := kv
    by_cases h : k0 = k
    · subst h
      simp [objSet, objFind?]
    · simp [objSet, objFind?, h, ih]

theorem objFind?_objSet_ne (kvs : List (String × Json)) (k k2 : String)
    (v : Json) (h : k2 ≠ k) :
    objFind? (objSet kvs k v) k2 = objFind? kvs k2 := by
  have hne : k ≠ k2 := Ne.symm h
  induction kvs with
  | nil => simp [objSet, objFind?, hne]
  | cons kv rest ih =>
    obtain ⟨k0, v0⟩ := kv
    by_cases h0 : k0 = k
    · subst h0
      simp [objSet, objFind?, hne]
    · simp only [objSet, if_neg h0, objFind?]
      by_cases h2 : k0 = k2
      · simp [h2]
      · simp [h2, ih]

theorem bind_ok {α β : Type} {x : Except PyErr α} {f : α → Except PyErr β}
    {b : β} (h : (x >>= f) = .ok b) : ∃ a, x = .ok a ∧ f a = .ok b := by
  cases x with
  | error e => simp [Bind.bind, Except.bind] at h
  | ok a => exact ⟨a, rfl, by simpa [Bind.bind, Except.bind] using h⟩

theorem wrapWrite_ok {α : Type} {r : Except PyErr (Json × α)} {d : Json}
    {v : α} (h : wrapWrite r = ([d], .ok v)) : r = .ok (d, v) := by
  cases r with
  | error e => simp [wrapWrite] at h
  | ok p =>
    obtain ⟨d0, v0⟩ := p
    simp only [wrapWrite, Prod.mk.injEq, List.cons.injEq, and_true,
      Except.ok.injEq] at h
    rw [h.1, h.2]

theorem pySetAdd_sub {st : List Json} {v : Json} {r : List Json}
    (h : pySetAdd st v = .ok r) : st ⊆ r ∧ v ∈ r := by
  unfold pySetAdd at h
  by_cases hh : v.hashable
  · rw [if_pos hh] at h
    simp only [Except.ok.injEq] at h
    by_cases hm : v ∈ st
    · rw [if_pos hm] at h
      subst h
      exact ⟨List.Subset.refl st, hm⟩
    · rw [if_neg hm] at h
      subst h
      exact ⟨List.subset_append_left st [v],
        List.mem_append_right st (List.mem_singleton.mpr rfl)⟩
  · rw [if_neg hh] at h
    cases h

theorem pyGetD_ok {x : Json} {k : String} {d v : Json}
    (h : pyGetD x k d = .ok v) :
    ∃ kvs, x = Json.obj kvs ∧ (objFind? kvs k).getD d = v := by
  cases x with
  | obj kvs =>
    simp only [pyGetD, Except.ok.injEq] at h
    exact ⟨kvs, rfl, h⟩
  | null => cases h
  | b w => cases h
  | i w => cases h
  | s w => cases h
  | arr w => cases h

theorem collectTruthyIds_spec :
    ∀ (xs : List Json) (acc ids : List Json),
      List.foldlM (fun acc x => do
        let v ← pyGetD x "id" Json.null
        if v.truthy then pySetAdd acc v else pure acc) acc xs = .ok ids →
      acc ⊆ ids ∧
      ∀ x ∈ xs, ∃ kvs, x = Json.obj kvs ∧
        (∀ v, objFind? kvs "id" = some v → v.truthy = true → v ∈ ids) := by
  intro xs
  induction xs with
  | nil =>
    intro acc ids h
    rw [List.foldlM_nil] at h
    simp only [pure, Except.pure, Except.ok.injEq] at h
    subst h
    exact ⟨List.Subset.refl acc, by simp⟩
  | cons x xs ih =>
    intro acc ids h
    rw [List.foldlM_cons] at h
    obtain ⟨acc2, hstep, hrest⟩ := bind_ok h
    obtain ⟨hsub2, hall⟩ := ih acc2 ids hrest
    obtain ⟨v, hget, hif⟩ := bind_ok hstep
    obtain ⟨kvs, rfl, hv⟩ := pyGetD_ok hget
    have hacc : acc ⊆ acc2 ∧ (v.truthy = true → v ∈ acc2) := by
      by_cases ht : v.truthy
      · rw [if_pos ht] at hif
        obtain ⟨h1, h2⟩ := pySetAdd_sub hif
        exact ⟨h1, fun _ => h2⟩
      · rw [if_neg ht] at hif
        simp only [pure, Except.pure, Except.ok.injEq] at hif
        subst hif
        exact ⟨List.Subset.refl acc, fun hc => absurd hc ht⟩
    refine ⟨hacc.1.trans hsub2, ?_⟩
    intro y hy
    rcases List.mem_cons.mp hy with rfl | hy2
    · refine ⟨kvs, rfl, ?_⟩
      intro w hw ht
      have hwv : w = v := by
        rw [hw] at hv
        simpa using hv
      subst hwv
      exact hsub2 (hacc.2 ht)
    · exact hall y hy2

/-- Top-level key lookup in a document. -/
def jsonGet? (d : Json) (k : String) : Option Json :=
  match d with
  | .obj kvs => objFind? kvs k
  | _ => none

/-- The stored projects list of a document (empty when absent or not a
list). -/
def projectsList (d : Json) : List Json :=
  match jsonGet? d "projects" with
  | some (.arr ps) => ps
  | _ => []

/-- C8: `create_project` modifies only the `projects` list of the master
document: it appends exactly one new project whose id is a non-empty string
different from every pre-existing project id, and every other top-level
section (`experience`, `skills`, `summary`, …) is unchanged, as are the
pre-existing projects. -/
theorem c8_create_project_frame (uuid : String) (data : Json)
    (payload : ProjectPayload) (d2 proj : Json) (huuid : uuid ≠ "")
    (h : create_project uuid data payload = ([d2], .ok proj)) :
    projectsList d2 = projectsList data ++ [proj] ∧
    (∃ pid, jsonGet? proj "id" = some (Json.s pid) ∧ pid ≠ "" ∧
      ∀ p ∈ projectsList data, jsonGet? p "id" ≠ some (Json.s pid)) ∧
    (∀ k, k ≠ "projects" → jsonGet? d2 k = jsonGet? data k) := by
  unfold create_project at h
  have hr := wrapWrite_ok h
  obtain ⟨pv, hpv, hr⟩ := bind_ok hr
  obtain ⟨ps, hps, hr⟩ := bind_ok hr
  obtain ⟨ids, hids, hr⟩ := bind_ok hr
  obtain ⟨pid, hpid, hr⟩ := bind_ok hr
  obtain ⟨bl, hbl, hr⟩ := bind_ok hr
  obtain ⟨sk, hsk, hr⟩ := bind_ok hr
  obtain ⟨lk, hlk, hr⟩ := bind_ok hr
  cases pv with
  | null => cases hr
  | b w => cases hr
  | i w => cases hr
  | s w => cases hr
  | obj w => cases hr
  | arr ps0 =>
    have hps0 : ps = ps0 := by
      simp only [pyIter, Except.ok.injEq] at hps
      exact hps.symm
    subst hps0
    obtain ⟨nd, hset, hpure⟩ := bind_ok hr
    simp only [pure, Except.pure, Except.ok.injEq, Prod.mk.injEq] at hpure
    obtain ⟨hnd, hproj⟩ := hpure
    cases data with
    | null => cases hset
    | b w => cases hset
    | i w => cases hset
    | s w => cases hset
    | arr w => cases hset
    | obj kvs =>
      simp only [pySetItem, Except.ok.injEq] at hset
      subst hproj
      subst hnd
      subst hset
      obtain ⟨kvs2, hkvs2, hgetd⟩ := pyGetD_ok hpv
      have hkvs : kvs2 = kvs := by
        injection hkvs2 with he
        exact he.symm
      rw [hkvs] at hgetd
      have hpl : projectsList (Json.obj kvs) = ps := by
        unfold projectsList jsonGet?
        cases hf : objFind? kvs "projects" with
        | none =>
          rw [hf] at hgetd
          simp only [Option.getD] at hgetd
          injection hgetd with hgetd2
          simp [hf, ← hgetd2]
        | some w =>
          rw [hf] at hgetd
          simp only [Option.getD] at hgetd
          subst hgetd
          simp [hf]
      have hfresh : Json.s pid ∉ ids :=
        ensure_unique_id_not_mem uuid _ ids pid hpid
      have hpidne : pid ≠ "" :=
        ensure_unique_id_ok_ne_empty uuid _ ids pid huuid hpid
      unfold collectTruthyIds at hids
      obtain ⟨_, hall⟩ := collectTruthyIds_spec ps [] ids hids
      refine ⟨?_, ⟨pid, ?_, hpidne, ?_⟩, ?_⟩
      · rw [hpl]
        unfold projectsList jsonGet?
        simp [objFind?_objSet_self]
      · simp [jsonGet?, objFind?]
      · intro p hp hc
        rw [hpl] at hp
        obtain ⟨kvsp, rfl, hprop⟩ := hall p hp
        simp only [jsonGet?] at hc
        have ht : (Json.s pid).truthy = true := by
          simp [Json.truthy, hpidne]
        exact hfresh (hprop (Json.s pid) hc ht)
      · intro k hk
        simp only [jsonGet?]
        exact objFind?_objSet_ne kvs "projects" k _ hk

theorem c8_create_project_frame_witness :
    projectsList (Json.obj
        [("summary", Json.obj []),
         ("projects", Json.arr [Json.obj
           [("id", Json.s "my-proj"), ("name", Json.s "My Proj"),
            ("year", Json.s ""), ("description_short", Json.s ""),
            ("bullets", Json.arr []), ("skills_used", Json.arr []),
            ("linked_experience", Json.arr [])]])])
      = projectsList (Json.obj [("summary", Json.obj [])]) ++ [Json.obj
          [("id", Json.s "my-proj"), ("name", Json.s "My Proj"),
           ("year", Json.s ""), ("description_short", Json.s ""),
           ("bullets", Json.arr []), ("skills_used", Json.arr []),
           ("linked_experience", Json.arr [])]] ∧
    (∃ pid, jsonGet? (Json.obj
        [("id", Json.s "my-proj"), ("name", Json.s "My Proj"),
         ("year", Json.s ""), ("description_short", Json.s ""),
         ("bullets", Json.arr []), ("skills_used", Json.arr []),
         ("linked_experience", Json.arr [])]) "id" = some (Json.s pid) ∧
      pid ≠ "" ∧
      ∀ p ∈ projectsList (Json.obj [("summary", Json.obj [])]),
        jsonGet? p "id" ≠ some (Json.s pid)) ∧
    (∀ k, k ≠ "projects" →
      jsonGet? (Json.obj
        [("summary", Json.obj []),
         ("projects", Json.arr [Json.obj
           [("id", Json.s "my-proj"), ("name", Json.s "My Proj"),
            ("year", Json.s ""), ("description_short", Json.s ""),
            ("bullets", Json.arr []), ("skills_used", Json.arr []),
            ("linked_experience", Json.arr [])]])]) k
        = jsonGet? (Json.obj [("summary", Json.obj [])]) k) :=
  c8_create_project_frame "u" (Json.obj [("summary", Json.obj [])])
    ⟨some "My Proj", none, none, none, none, none⟩ _ _ (by decide) rfl

theorem cleanupOneProject_ok (field wanted : String) (p p2 : Json)
    (h : cleanupOneProject field wanted p = .ok p2) :
    (∃ kvs kvs2, p = Json.obj kvs ∧ p2 = Json.obj kvs2 ∧
      (∀ k, k ≠ field → objFind? kvs2 k = objFind? kvs k)) ∧
    (∀ su, pyGetD p2 field (Json.arr []) = .ok su →
      pyContains su (Json.s wanted) = .ok false) := by
  unfold cleanupOneProject at h
  obtain ⟨cur, hcur, h⟩ := bind_ok h
  obtain ⟨isIn, hin, h⟩ := bind_ok h
  obtain ⟨kvs, rfl, hgetd⟩ := pyGetD_ok hcur
  cases isIn with
  | true =>
    rw [if_pos rfl] at h
    obtain ⟨lst, hlst, h⟩ := bind_ok h
    obtain ⟨items, hitems, h⟩ := bind_ok h
    simp only [pure, Except.pure, Except.ok.injEq] at h
    constructor
    · refine ⟨kvs, _, rfl, h.symm, ?_⟩
      intro k hk
      exact objFind?_objSet_ne kvs field k _ hk
    · intro su hsu
      rw [← h] at hsu
      simp only [pyGetD, Except.ok.injEq, objFind?_objSet_self,
        Option.getD] at hsu
      rw [← hsu]
      simp [pyContains, List.mem_filter]
  | false =>
    rw [if_neg (by simp)] at h
    simp only [pure, Except.pure, Except.ok.injEq] at h
    subst h
    constructor
    · exact ⟨kvs, kvs, rfl, rfl, fun k _ => rfl⟩
    · intro su hsu
      have hsu2 : su = cur := by
        rw [hcur] at hsu
        injection hsu with he
        exact he.symm
      rw [hsu2]
      exact hin

theorem mapM_cleanup_spec (field wanted : String) :
    ∀ (ps ps2 : List Json),
      ps.mapM (cleanupOneProject field wanted) = .ok ps2 →
      ps2.length = ps.length ∧
      (∀ p2 ∈ ps2, ∀ su, pyGetD p2 field (Json.arr []) = .ok su →
        pyContains su (Json.s wanted) = .ok false) ∧
      ∀ i kvs, ps.get? i = some (Json.obj kvs) →
        ∃ kvs2, ps2.get? i = some (Json.obj kvs2) ∧
          ∀ k, k ≠ field → objFind? kvs2 k = objFind? kvs k := by
  intro ps
  induction ps with
  | nil =>
    intro ps2 h
    simp only [List.mapM_nil, pure, Except.pure, Except.ok.injEq] at h
    subst h
    refine ⟨rfl, by simp, ?_⟩
    intro i kvs hi
    simp [List.get?] at hi
  | cons p ps ih =>
    intro ps2 h
    rw [List.mapM_cons] at h
    obtain ⟨p2, hp2, h⟩ := bind_ok h
    obtain ⟨ps2t, hps2t, h⟩ := bind_ok h
    simp only [pure, Except.pure, Except.ok.injEq] at h
    subst h
    obtain ⟨hlen, hcont, hframe⟩ := ih ps2t hps2t
    obtain ⟨⟨kvs0, kvs2, hpe, hp2e, hfr⟩, hcnt⟩ :=
      cleanupOneProject_ok field wanted p p2 hp2
    refine ⟨by simp [hlen], ?_, ?_⟩
    · intro q hq
      rcases List.mem_cons.mp hq with rfl | hq2
      · exact hcnt
      · exact hcont q hq2
    · intro i kvs hi
      cases i with
      | zero =>
        simp only [List.get?] at hi
        injection hi with he
        rw [hpe] at he
        injection he with he2
        refine ⟨kvs2, by simp [List.get?, hp2e], ?_⟩
        intro k hk
        rw [← he2]
        exact hfr k hk
      | succ i =>
        simp only [List.get?] at hi
        obtain ⟨kvs2b, hb1, hb2⟩ := hframe i kvs hi
        exact ⟨kvs2b, by simpa [List.get?] using hb1, hb2⟩

theorem cleanupProjects_spec (data d2 : Json) (field wanted : String)
    (ps : List Json)
    (hget : pyGetD data "projects" (Json.arr []) = .ok (Json.arr ps))
    (h : cleanupProjects data field wanted = .ok d2) :
    ∃ ps2, pyGetD d2 "projects" (Json.arr []) = .ok (Json.arr ps2) ∧
      ps.mapM (cleanupOneProject field wanted) = .ok ps2 ∧
      (∀ k, k ≠ "projects" → jsonGet? d2 k = jsonGet? data k) := by
  unfold cleanupProjects at h
  obtain ⟨pv, hpv, h⟩ := bind_ok h
  rw [hget] at hpv
  injection hpv with hpv2
  subst hpv2
  obtain ⟨ps2, hmap, h⟩ := bind_ok h
  obtain ⟨kvs, hdata, hgetd⟩ := pyGetD_ok hget
  subst hdata
  cases hf : objFind? kvs "projects" with
  | some w =>
    rw [hf] at hgetd
    simp only [Option.getD] at hgetd
    subst hgetd
    simp only [hf, pure, Except.pure, Except.ok.injEq] at h
    subst h
    refine ⟨ps2, ?_, hmap, ?_⟩
    · simp [pyGetD, objFind?_objSet_self]
    · intro k hk
      simp only [jsonGet?]
      exact objFind?_objSet_ne kvs "projects" k _ hk
  | none =>
    rw [hf] at hgetd
    simp only [Option.getD] at hgetd
    injection hgetd with hps
    simp only [hf, pure, Except.pure, Except.ok.injEq] at h
    subst h
    refine ⟨ps2, ?_, hmap, fun k _ => rfl⟩
    have hps0 : ps = [] := hps.symm
    subst hps0
    simp only [List.mapM_nil, pure, Except.pure, Except.ok.injEq] at hmap
    subst hmap
    exact hget

/-- C7: deletion cleans up references in the same write: after a successful
`delete_skill(category, skill_id)` no project's `skills_used` contains
`skill_id` any more, and after a successful `delete_experience(experience_id)`
no project's `linked_experience` contains `experience_id`; in both cases
every other field of every project is unchanged, and the cleaned document is
the operation's single write. -/
theorem c7_delete_cleans_references
    (dataS dataE : Json) (cat sid eid : String) (dS dE retS retE : Json)
    (psS psE : List Json)
    (hS : delete_skill dataS cat sid = ([dS], .ok retS))
    (hpsS : pyGetD dataS "projects" (Json.arr []) = .ok (Json.arr psS))
    (hE : delete_experience dataE eid = ([dE], .ok retE))
    (hpsE : pyGetD dataE "projects" (Json.arr []) = .ok (Json.arr psE)) :
    (∃ ps2, pyGetD dS "projects" (Json.arr []) = .ok (Json.arr ps2) ∧
      ps2.length = psS.length ∧
      (∀ p2 ∈ ps2, ∀ su, pyGetD p2 "skills_used" (Json.arr []) = .ok su →
        pyContains su (Json.s sid) = .ok false) ∧
      (∀ i kvs, psS.get? i = some (Json.obj kvs) →
        ∃ kvs2, ps2.get? i = some (Json.obj kvs2) ∧
          ∀ k, k ≠ "skills_used" → objFind? kvs2 k = objFind? kvs k)) ∧
    (∃ ps2, pyGetD dE "projects" (Json.arr []) = .ok (Json.arr ps2) ∧
      ps2.length = psE.length ∧
      (∀ p2 ∈ ps2, ∀ su, pyGetD p2 "linked_experience" (Json.arr []) = .ok su →
        pyContains su (Json.s eid) = .ok false) ∧
      (∀ i kvs, psE.get? i = some (Json.obj kvs) →
        ∃ kvs2, ps2.get? i = some (Json.obj kvs2) ∧
          ∀ k, k ≠ "linked_experience" → objFind? kvs2 k = objFind? kvs k)) := by
  constructor
  · unfold delete_skill at hS
    have hr := wrapWrite_ok hS
    obtain ⟨entOpt, hcat, hr⟩ := bind_ok hr
    cases entOpt with
    | none => cases hr
    | some ev =>
      obtain ⟨entries, hent, hr⟩ := bind_ok hr
      obtain ⟨filtered, hfil, hr⟩ := bind_ok hr
      by_cases hlen : filtered.length = entries.length
      · rw [if_pos hlen] at hr
        cases hr
      · rw [if_neg hlen] at hr
        obtain ⟨skillsVal, hsv, hr⟩ := bind_ok hr
        obtain ⟨newSkills, hns, hr⟩ := bind_ok hr
        obtain ⟨d1, hd1, hr⟩ := bind_ok hr
        obtain ⟨d2p, hcl, hr⟩ := bind_ok hr
        simp only [pure, Except.pure, Except.ok.injEq, Prod.mk.injEq] at hr
        obtain ⟨hd2, hret⟩ := hr
        subst hd2
        obtain ⟨kvs, hdata, hgetd⟩ := pyGetD_ok hpsS
        subst hdata
        simp only [pySetItem, Except.ok.injEq] at hd1
        subst hd1
        have hd1proj : pyGetD (Json.obj (objSet kvs "skills" newSkills))
            "projects" (Json.arr []) = .ok (Json.arr psS) := by
          simp only [pyGetD, Except.ok.injEq]
          rw [objFind?_objSet_ne kvs "skills" "projects" newSkills (by decide)]
          exact hgetd
        obtain ⟨ps2, hps2, hmap, _⟩ :=
          cleanupProjects_spec _ _ "skills_used" sid psS hd1proj hcl
        obtain ⟨hlen2, hcont, hframe⟩ :=
          mapM_cleanup_spec "skills_used" sid psS ps2 hmap
        exact ⟨ps2, hps2, hlen2, hcont, hframe⟩
  · unfold delete_experience at hE
    have hr := wrapWrite_ok hE
    obtain ⟨xv, hxv, hr⟩ := bind_ok hr
    obtain ⟨items, hitems, hr⟩ := bind_ok hr
    obtain ⟨filtered, hfil, hr⟩ := bind_ok hr
    by_cases hlen : filtered.length = items.length
    · rw [if_pos hlen] at hr
      cases hr
    · rw [if_neg hlen] at hr
      obtain ⟨d1, hd1, hr⟩ := bind_ok hr
      obtain ⟨d2p, hcl, hr⟩ := bind_ok hr
      simp only [pure, Except.pure, Except.ok.injEq, Prod.mk.injEq] at hr
      obtain ⟨hd2, hret⟩ := hr
      subst hd2
      obtain ⟨kvs, hdata, hgetd⟩ := pyGetD_ok hpsE
      subst hdata
      simp only [pySetItem, Except.ok.injEq] at hd1
      subst hd1
      have hd1proj : pyGetD (Json.obj (objSet kvs "experience" (Json.arr filtered)))
          "projects" (Json.arr []) = .ok (Json.arr psE) := by
        simp only [pyGetD, Except.ok.injEq]
        rw [objFind?_objSet_ne kvs "experience" "projects" _ (by decide)]
        exact hgetd
      obtain ⟨ps2, hps2, hmap, _⟩ :=
        cleanupProjects_spec _ _ "linked_experience" eid psE hd1proj hcl
      obtain ⟨hlen2, hcont, hframe⟩ :=
        mapM_cleanup_spec "linked_experience" eid psE ps2 hmap
      exact ⟨ps2, hps2, hlen2, hcont, hframe⟩

theorem c7_delete_cleans_references_witness :
    (∃ ps2, pyGetD (Json.obj
        [("skills", Json.obj [("langs", Json.arr
           [Json.obj [("id", Json.s "sql"), ("label", Json.s "SQL")]])]),
         ("projects", Json.arr [Json.obj [("id", Json.s "p1"),
           ("skills_used", Json.arr [Json.s "sql"])]])])
        "projects" (Json.arr []) = .ok (Json.arr ps2) ∧
      ps2.length = [Json.obj [("id", Json.s "p1"),
        ("skills_used", Json.arr [Json.s "py", Json.s "sql"])]].length ∧
      (∀ p2 ∈ ps2, ∀ su, pyGetD p2 "skills_used" (Json.arr []) = .ok su →
        pyContains su (Json.s "py") = .ok false) ∧
      (∀ i kvs, [Json.obj [("id", Json.s "p1"),
          ("skills_used", Json.arr [Json.s "py", Json.s "sql"])]].get? i
          = some (Json.obj kvs) →
        ∃ kvs2, ps2.get? i = some (Json.obj kvs2) ∧
          ∀ k, k ≠ "skills_used" → objFind? kvs2 k = objFind? kvs k)) ∧
    (∃ ps2, pyGetD (Json.obj
        [("experience", Json.arr []),
         ("projects", Json.arr [Json.obj [("id", Json.s "p1"),
           ("linked_experience", Json.arr [])]])])
        "projects" (Json.arr []) = .ok (Json.arr ps2) ∧
      ps2.length = [Json.obj [("id", Json.s "p1"),
        ("linked_experience", Json.arr [Json.s "e1"])]].length ∧
      (∀ p2 ∈ ps2, ∀ su, pyGetD p2 "linked_experience" (Json.arr []) = .ok su →
        pyContains su (Json.s "e1") = .ok false) ∧
      (∀ i kvs, [Json.obj [("id", Json.s "p1"),
          ("linked_experience", Json.arr [Json.s "e1"])]].get? i
          = some (Json.obj kvs) →
        ∃ kvs2, ps2.get? i = some (Json.obj kvs2) ∧
          ∀ k, k ≠ "linked_experience" → objFind? kvs2 k = objFind? kvs k)) :=
  c7_delete_cleans_references
    (Json.obj
      [("skills", Json.obj [("langs", Json.arr
         [Json.obj [("id", Json.s "py"), ("label", Json.s "Python")],
          Json.obj [("id", Json.s "sql"), ("label", Json.s "SQL")]])]),
       ("projects", Json.arr [Json.obj [("id", Json.s "p1"),
         ("skills_used", Json.arr [Json.s "py", Json.s "sql"])]])])
    (Json.obj
      [("experience", Json.arr [Json.obj [("id", Json.s "e1")]]),
       ("projects", Json.arr [Json.obj [("id", Json.s "p1"),
         ("linked_experience", Json.arr [Json.s "e1"])]])])
    "langs" "py" "e1" _ _
    (Json.obj [("deleted", Json.s "py"), ("category", Json.s "langs")])
    (Json.obj [("deleted", Json.s "e1")])
    [Json.obj [("id", Json.s "p1"),
      ("skills_used", Json.arr [Json.s "py", Json.s "sql"])]]
    [Json.obj [("id", Json.s "p1"),
      ("linked_experience", Json.arr [Json.s "e1"])]]
    rfl rfl rfl rfl

/-! ### `MasterStore._ensure_schema` (`lib/json_store/master_store.py`)

The schema pass mutates the stored lists/dicts in place and writes the file
only when something changed.  The model rebuilds the document functionally:
a section is written back only when its stored value is the container
Python would have mutated (a list for `experience`/`projects`; the `skills`
dict is reassigned per category). -/

/-- One iteration of the `for item in experience` / `for project in
projects` id loop: back-fill a falsy `id` from the default-key slug and add
the id to the running set. -/
def schemaItemStep (uuid defaultKey defaultBase : String)
    (ids : List Json) (item : Json) : Except PyErr (Json × List Json × Bool) := do
  let idv ← pyGetD item "id" .null
  if idv.truthy then do
    let ids2 ← pySetAdd ids idv
    pure (item, ids2, false)
  else do
    let base ← pyGetD item defaultKey (.s defaultBase)
    let newId ← ensure_unique_id uuid base ids
    let item2 ← pySetItem item "id" (.s newId)
    let ids2 ← pySetAdd ids (Json.s newId)
    pure (item2, ids2, true)

/-- The experience id loop. -/
def schemaItemsLoop (uuid defaultKey defaultBase : String) :
    List Json → List Json → Except PyErr (List Json × List Json × Bool)
  | [], ids => .ok ([], ids, false)
  | item :: rest, ids => do
    let (item2, ids2, m1) ← schemaItemStep uuid defaultKey defaultBase ids item
    let (rest2, ids3, m2) ← schemaItemsLoop uuid defaultKey defaultBase rest ids2
    pure (item2 :: rest2, ids3, m1 || m2)

/-- `if k not in project: project[k] = v; mutated = True`. -/
def ensureField (kvs : List (String × Json)) (k : String) (v : Json) :
    List (String × Json) × Bool :=
  match objFind? kvs k with
  | some _ => (kvs, false)
  | none => (objSet kvs k v, true)

/-- One iteration of the project loop: id back-fill plus the three project
field defaults. -/
def schemaProjectStep (uuid : String) (ids : List Json) (project : Json) :
    Except PyErr (Json × List Json × Bool) := do
  let (p1, ids2, m1) ← schemaItemStep uuid "name" "project" ids project
  match p1 with
  | .obj kvs =>
    let r2 := ensureField kvs "description_short" (Json.s "")
    let r3 := ensureField r2.1 "skills_used" (Json.arr [])
    let r4 := ensureField r3.1 "linked_experience" (Json.arr [])
    pure (.obj r4.1, ids2, m1 || r2.2 || r3.2 || r4.2)
  | _ => .error (.typeError "argument of type is not iterable")

/-- The project loop. -/
def schemaProjectsLoop (uuid : String) :
    List Json → List Json → Except PyErr (List Json × List Json × Bool)
  | [], ids => .ok ([], ids, false)
  | p :: rest, ids => do
    let (p2, ids2, m1) ← schemaProjectStep uuid ids p
    let (rest2, ids3, m2) ← schemaProjectsLoop uuid rest ids2
    pure (p2 :: rest2, ids3, m1 || m2)

/-- `entry.get("id") or ensure_unique_id(entry.get("label", "skill"),
seen_ids)` for a dict entry. -/
def skillEntryId (uuid : String) (seen : List Json)
    (kvs : List (String × Json)) : Except PyErr Json :=
  if ((objFind? kvs "id").getD .null).truthy then
    .ok ((objFind? kvs "id").getD .null)
  else do
    let r ← ensure_unique_id uuid ((objFind? kvs "label").getD (.s "skill")) seen
    pure (Json.s r)

/-- `entry.get("label", "").strip()` for a dict entry. -/
def skillEntryLabel (kvs : List (String × Json)) : Except PyErr String :=
  match (objFind? kvs "label").getD (.s "") with
  | .s lv => .ok (pyStrip lv)
  | _ => .error (.attributeError "strip")

/-- One iteration of the skills normalization loop over one entry.  The
`mutated` test `entry.get("id") == skill_id and entry.get("label",
"").strip() == label` has an always-true second conjunct in the dict case
(it recomputes exactly `label`), so it reduces to the id comparison; a
non-dict entry always sets `mutated`. -/
def schemaSkillEntry (uuid : String) (seen : List Json) (entry : Json) :
    Except PyErr (Json × List Json × Bool) :=
  match entry with
  | .obj kvs => do
    let skill_id ← skillEntryId uuid seen kvs
    let label ← skillEntryLabel kvs
    let seen2 ← pySetAdd seen skill_id
    pure (Json.obj [("id", skill_id), ("label", Json.s label)], seen2,
      decide ((objFind? kvs "id").getD .null ≠ skill_id))
  | _ => do
    let label := pyStrip (pyStr entry)
    let r ← ensure_unique_id uuid
      (Json.s (if label = "" then "skill" else label)) seen
    let seen2 ← pySetAdd seen (Json.s r)
    pure (Json.obj [("id", Json.s r), ("label", Json.s label)], seen2, true)

/-- The `for entry in entries` loop of one skills category. -/
def schemaSkillEntriesLoop (uuid : String) :
    List Json → List Json → Except PyErr (List Json × List Json × Bool)
  | [], seen => .ok ([], seen, false)
  | e :: rest, seen => do
    let (e2, seen2, m1) ← schemaSkillEntry uuid seen e
    let (rest2, seen3, m2) ← schemaSkillEntriesLoop uuid rest seen2
    pure (e2 :: rest2, seen3, m1 || m2)

/-- The `for category, entries in skills.items()` loop; every category is
reassigned its normalized entry list. -/
def schemaSkillsLoop (uuid : String) :
    List (String × Json) → Except PyErr (List (String × Json) × Bool)
  | [] => .ok ([], false)
  | (cat, entriesVal) :: rest => do
    let entries ← pyIter entriesVal
    let r1 ← schemaSkillEntriesLoop uuid entries []
    let r2 ← schemaSkillsLoop uuid rest
    pure ((cat, Json.arr r1.1) :: r2.1, r1.2.2 || r2.2)

/-- `.items()` on a value: dicts yield their bindings; anything else
raises `AttributeError`. -/
def dictItems (v : Json) : Except PyErr (List (String × Json)) :=
  match v with
  | .obj kvs => .ok kvs
  | _ => .error (.attributeError "items")

/-- Write back a section whose stored value Python mutated in place: only a
stored list is affected by item mutations (iterating a string or dict
yields fresh values, and a missing key got a fresh default list). -/
def updateIfArr (data : Json) (k : String) (orig : Json) (newItems : List Json) :
    Json :=
  match orig, data with
  | .arr _, .obj kvs =>
    match objFind? kvs k with
    | some _ => .obj (objSet kvs k (.arr newItems))
    | none => data
  | _, _ => data

/-- Write back the per-category reassignments `skills[category] =
normalized` (they affect the document only when the `skills` dict is
stored in it). -/
def updateSkillsIn (data : Json) (newKvs : List (String × Json)) : Json :=
  match data with
  | .obj kvs =>
    match objFind? kvs "skills" with
    | some _ => .obj (objSet kvs "skills" (.obj newKvs))
    | none => data
  | _ => data

/-- `MasterStore._ensure_schema`: returns the in-memory document after the
pass together with the `mutated` flag (the file is rewritten only when the
flag is set).  `uuid` models the `uuid.uuid4()` results used by `slugify`
(the code deduplicates generated ids itself, so one value suffices). -/
def ensure_schema (uuid : String) (data : Json) : Except PyErr (Json × Bool) :=
  if !data.truthy then .ok (data, false)
  else do
    let expVal ← pyGetD data "experience" (.arr [])
    let expItems ← pyIter expVal
    let re ← schemaItemsLoop uuid "company" "experience" expItems []
    let data1 := updateIfArr data "experience" expVal re.1
    let projVal ← pyGetD data1 "projects" (.arr [])
    let projItems ← pyIter projVal
    let rp ← schemaProjectsLoop uuid projItems []
    let data2 := updateIfArr data1 "projects" projVal rp.1
    let skillsVal ← pyGetD data2 "skills" (.obj [])
    let skillsKvs ← dictItems skillsVal
    let rs ← schemaSkillsLoop uuid skillsKvs
    let data3 := updateSkillsIn data2 rs.1
    pure (data3, re.2.2 || rp.2.2 || rs.2)

/-- The stored file after constructing a `MasterStore` over `data`: the
schema pass rewrites the file only when it mutated something. -/
def ensureSchemaFile (uuid : String) (data : Json) : Except PyErr Json := do
  let r ← ensure_schema uuid data
  pure (if r.2 then r.1 else data)

theorem pySetAdd_hashable {st : List Json} {v : Json} {r : List Json}
    (h : pySetAdd st v = .ok r) : v.hashable = true := by
  unfold pySetAdd at h
  by_cases hh : v.hashable
  · exact hh
  · rw [if_neg hh] at h
    cases h

theorem schemaItemStep_good (uuid dk db : String) (ids : List Json)
    (item item2 : Json) (ids2 : List Json) (m : Bool) (huuid : uuid ≠ "")
    (h : schemaItemStep uuid dk db ids item = .ok (item2, ids2, m)) :
    ∃ kvs v, item2 = Json.obj kvs ∧ objFind? kvs "id" = some v ∧
      v.truthy = true ∧ v.hashable = true := by
  unfold schemaItemStep at h
  obtain ⟨idv, hid, h⟩ := bind_ok h
  obtain ⟨kvs, rfl, hv⟩ := pyGetD_ok hid
  by_cases ht : idv.truthy
  · rw [if_pos ht] at h
    obtain ⟨ids2b, hadd, h⟩ := bind_ok h
    simp only [pure, Except.pure, Except.ok.injEq, Prod.mk.injEq] at h
    obtain ⟨h1, h2, h3⟩ := h
    refine ⟨kvs, idv, h1.symm, ?_, ht, pySetAdd_hashable hadd⟩
    cases hf : objFind? kvs "id" with
    | none =>
      rw [hf] at hv
      simp only [Option.getD] at hv
      rw [← hv] at ht
      simp [Json.truthy] at ht
    | some w =>
      rw [hf] at hv
      simp only [Option.getD] at hv
      rw [hv]
  · rw [if_neg ht] at h
    obtain ⟨base, hbase, h⟩ := bind_ok h
    obtain ⟨newId, hnew, h⟩ := bind_ok h
    obtain ⟨item2b, hset, h⟩ := bind_ok h
    obtain ⟨ids2b, hadd, h⟩ := bind_ok h
    simp only [pure, Except.pure, Except.ok.injEq, Prod.mk.injEq] at h
    obtain ⟨h1, h2, h3⟩ := h
    simp only [pySetItem, Except.ok.injEq] at hset
    have hne : newId ≠ "" :=
      ensure_unique_id_ok_ne_empty uuid base ids newId huuid hnew
    refine ⟨objSet kvs "id" (Json.s newId), Json.s newId, ?_, ?_, ?_, rfl⟩
    · rw [← h1, ← hset]
    · exact objFind?_objSet_self kvs "id" (Json.s newId)
    · simp [Json.truthy, hne]

theorem schemaItemsLoop_good (uuid dk db : String) (huuid : uuid ≠ "") :
    ∀ (items ids : List Json) (out : List Json × List Json × Bool),
      schemaItemsLoop uuid dk db items ids = .ok out →
      ∀ p ∈ out.1, ∃ kvs v, p = Json.obj kvs ∧ objFind? kvs "id" = some v ∧
        v.truthy = true ∧ v.hashable = true := by
  intro items
  induction items with
  | nil =>
    intro ids out h
    simp only [schemaItemsLoop, Except.ok.injEq] at h
    subst h
    simp
  | cons item rest ih =>
    intro ids out h
    simp only [schemaItemsLoop] at h
    obtain ⟨t1, hstep, h⟩ := bind_ok h
    obtain ⟨item2, ids2, m1⟩ := t1
    obtain ⟨t2, hrest, h⟩ := bind_ok h
    obtain ⟨rest2, ids3, m2⟩ := t2
    simp only [pure, Except.pure, Except.ok.injEq] at h
    subst h
    intro p hp
    rcases List.mem_cons.mp hp with rfl | hp2
    · exact schemaItemStep_good uuid dk db ids item _ ids2 m1 huuid hstep
    · exact ih ids2 (rest2, ids3, m2) hrest p hp2

theorem ensureField_self (kvs : List (String × Json)) (k : String) (v : Json) :
    (objFind? (ensureField kvs k v).1 k).isSome = true := by
  unfold ensureField
  cases hf : objFind? kvs k with
  | some w => simp [hf]
  | none => simp [objFind?_objSet_self]

theorem ensureField_other (kvs : List (String × Json)) (k k2 : String)
    (v : Json) (h : k2 ≠ k) :
    objFind? (ensureField kvs k v).1 k2 = objFind? kvs k2 := by
  unfold ensureField
  cases hf : objFind? kvs k with
  | some w => rfl
  | none => exact objFind?_objSet_ne kvs k k2 v h

theorem schemaProjectStep_good (uuid : String) (ids : List Json)
    (p p2 : Json) (ids2 : List Json) (m : Bool) (huuid : uuid ≠ "")
    (h : schemaProjectStep uuid ids p = .ok (p2, ids2, m)) :
    ∃ kvs v, p2 = Json.obj kvs ∧ objFind? kvs "id" = some v ∧
      v.truthy = true ∧ v.hashable = true ∧
      (objFind? kvs "description_short").isSome = true ∧
      (objFind? kvs "skills_used").isSome = true ∧
      (objFind? kvs "linked_experience").isSome = true := by
  unfold schemaProjectStep at h
  obtain ⟨t1, hstep, h⟩ := bind_ok h
  obtain ⟨p1, ids1, m1⟩ := t1
  obtain ⟨kvs1, v, hp1, hfind, htr, hha⟩ :=
    schemaItemStep_good uuid "name" "project" ids p p1 ids1 m1 huuid hstep
  subst hp1
  simp only [pure, Except.pure, Except.ok.injEq, Prod.mk.injEq] at h
  obtain ⟨h1, h2, h3⟩ := h
  set k2 := (ensureField kvs1 "description_short" (Json.s "")).1 with hk2
  set k3 := (ensureField k2 "skills_used" (Json.arr [])).1 with hk3
  set k4 := (ensureField k3 "linked_experience" (Json.arr [])).1 with hk4
  refine ⟨k4, v, h1.symm, ?_, htr, hha, ?_, ?_, ?_⟩
  · rw [hk4, ensureField_other k3 "linked_experience" "id" _ (by decide),
      hk3, ensureField_other k2 "skills_used" "id" _ (by decide),
      hk2, ensureField_other kvs1 "description_short" "id" _ (by decide)]
    exact hfind
  · rw [hk4, ensureField_other k3 "linked_experience" "description_short" _ (by decide),
      hk3, ensureField_other k2 "skills_used" "description_short" _ (by decide), hk2]
    exact ensureField_self kvs1 "description_short" (Json.s "")
  · rw [hk4, ensureField_other k3 "linked_experience" "skills_used" _ (by decide), hk3]
    exact ensureField_self k2 "skills_used" (Json.arr [])
  · rw [hk4]
    exact ensureField_self k3 "linked_experience" (Json.arr [])

theorem schemaProjectsLoop_good (uuid : String) (huuid : uuid ≠ "") :
    ∀ (items ids : List Json) (out : List Json × List Json × Bool),
      schemaProjectsLoop uuid items ids = .ok out →
      ∀ p ∈ out.1, ∃ kvs v, p = Json.obj kvs ∧ objFind? kvs "id" = some v ∧
        v.truthy = true ∧ v.hashable = true ∧
        (objFind? kvs "description_short").isSome = true ∧
        (objFind? kvs "skills_used").isSome = true ∧
        (objFind? kvs "linked_experience").isSome = true := by
  intro items
  induction items with
  | nil =>
    intro ids out h
    simp only [schemaProjectsLoop, Except.ok.injEq] at h
    subst h
    simp
  | cons item rest ih =>
    intro ids out h
    simp only [schemaProjectsLoop] at h
    obtain ⟨t1, hstep, h⟩ := bind_ok h
    obtain ⟨item2, ids2, m1⟩ := t1
    obtain ⟨t2, hrest, h⟩ := bind_ok h
    obtain ⟨rest2, ids3, m2⟩ := t2
    simp only [pure, Except.pure, Except.ok.injEq] at h
    subst h
    intro p hp
    rcases List.mem_cons.mp hp with rfl | hp2
    · exact schemaProjectStep_good uuid ids item _ ids2 m1 huuid hstep
    · exact ih ids2 (rest2, ids3, m2) hrest p hp2

theorem schemaSkillEntry_good (uuid : String) (seen : List Json)
    (e e2 : Json) (seen2 : List Json) (m : Bool) (huuid : uuid ≠ "")
    (h : schemaSkillEntry uuid seen e = .ok (e2, seen2, m)) :
    ∃ sid lab, e2 = Json.obj [("id", sid), ("label", Json.s lab)] ∧
      sid.truthy = true ∧ sid.hashable = true ∧ ∃ l0, lab = pyStrip l0 := by
  cases e
  case obj kvs =>
    unfold schemaSkillEntry at h
    obtain ⟨sid, hsid, h⟩ := bind_ok h
    obtain ⟨lab, hlab, h⟩ := bind_ok h
    obtain ⟨seen2b, hadd, h⟩ := bind_ok h
    simp only [pure, Except.pure, Except.ok.injEq, Prod.mk.injEq] at h
    obtain ⟨h1, h2, h3⟩ := h
    have hsidt : sid.truthy = true := by
      unfold skillEntryId at hsid
      by_cases ht : ((objFind? kvs "id").getD Json.null).truthy
      · rw [if_pos ht] at hsid
        injection hsid with he
        rw [← he]
        exact ht
      · rw [if_neg ht] at hsid
        obtain ⟨r, hr, hsid⟩ := bind_ok hsid
        simp only [pure, Except.pure, Except.ok.injEq] at hsid
        have hne := ensure_unique_id_ok_ne_empty uuid _ seen r huuid hr
        rw [← hsid]
        simp [Json.truthy, hne]
    have hlabd : ∃ l0, lab = pyStrip l0 := by
      unfold skillEntryLabel at hlab
      cases hgl : (objFind? kvs "label").getD (Json.s "") with
      | s lv =>
        rw [hgl] at hlab
        injection hlab with he
        exact ⟨lv, he.symm⟩
      | null => rw [hgl] at hlab; cases hlab
      | b w => rw [hgl] at hlab; cases hlab
      | i w => rw [hgl] at hlab; cases hlab
      | arr w => rw [hgl] at hlab; cases hlab
      | obj w => rw [hgl] at hlab; cases hlab
    exact ⟨sid, lab, h1.symm, hsidt, pySetAdd_hashable hadd, hlabd⟩
  all_goals
    (unfold schemaSkillEntry at h
     obtain ⟨r, hr, h⟩ := bind_ok h
     obtain ⟨seen2b, hadd, h⟩ := bind_ok h
     simp only [pure, Except.pure, Except.ok.injEq, Prod.mk.injEq] at h
     obtain ⟨h1, h2, h3⟩ := h
     have hne := ensure_unique_id_ok_ne_empty uuid _ seen r huuid hr
     exact ⟨Json.s r, _, h1.symm, by simp [Json.truthy, hne], rfl, ⟨_, rfl⟩⟩)

theorem schemaSkillEntriesLoop_good (uuid : String) (huuid : uuid ≠ "") :
    ∀ (entries seen : List Json) (out : List Json × List Json × Bool),
      schemaSkillEntriesLoop uuid entries seen = .ok out →
      ∀ e ∈ out.1, ∃ sid lab,
        e = Json.obj [("id", sid), ("label", Json.s lab)] ∧
        sid.truthy = true ∧ sid.hashable = true ∧ ∃ l0, lab = pyStrip l0 := by
  intro entries
  induction entries with
  | nil =>
    intro seen out h
    simp only [schemaSkillEntriesLoop, Except.ok.injEq] at h
    subst h
    simp
  | cons e rest ih =>
    intro seen out h
    simp only [schemaSkillEntriesLoop] at h
    obtain ⟨t1, hstep, h⟩ := bind_ok h
    obtain ⟨e2, seen2, m1⟩ := t1
    obtain ⟨t2, hrest, h⟩ := bind_ok h
    obtain ⟨rest2, seen3, m2⟩ := t2
    simp only [pure, Except.pure, Except.ok.injEq] at h
    subst h
    intro q hq
    rcases List.mem_cons.mp hq with rfl | hq2
    · exact schemaSkillEntry_good uuid seen e _ seen2 m1 huuid hstep
    · exact ih seen2 (rest2, seen3, m2) hrest q hq2

theorem schemaSkillsLoop_good (uuid : String) (huuid : uuid ≠ "") :
    ∀ (skvs : List (String × Json)) (out : List (String × Json) × Bool),
      schemaSkillsLoop uuid skvs = .ok out →
      ∀ cv ∈ out.1, ∃ entries, cv.2 = Json.arr entries ∧
        ∀ e ∈ entries, ∃ sid lab,
          e = Json.obj [("id", sid), ("label", Json.s lab)] ∧
          sid.truthy = true ∧ sid.hashable = true ∧ ∃ l0, lab = pyStrip l0 := by
  intro skvs
  induction skvs with
  | nil =>
    intro out h
    simp only [schemaSkillsLoop, Except.ok.injEq] at h
    subst h
    simp
  | cons cv rest ih =>
    obtain ⟨cat, ev⟩ := cv
    intro out h
    simp only [schemaSkillsLoop] at h
    obtain ⟨entries, hent, h⟩ := bind_ok h
    obtain ⟨r1, hloop, h⟩ := bind_ok h
    obtain ⟨r2, hrest, h⟩ := bind_ok h
    simp only [pure, Except.pure, Except.ok.injEq] at h
    subst h
    intro q hq
    rcases List.mem_cons.mp hq with rfl | hq2
    · exact ⟨r1.1, rfl,
        schemaSkillEntriesLoop_good uuid huuid entries [] r1 hloop⟩
    · exact ih r2 hrest q hq2

theorem updateIfArr_frame (data : Json) (k k2 : String) (orig : Json)
    (ni : List Json) (h : k2 ≠ k) :
    jsonGet? (updateIfArr data k orig ni) k2 = jsonGet? data k2 := by
  unfold updateIfArr
  split
  · rename_i xs kvs
    cases hf : objFind? kvs k with
    | some w =>
      simp only [hf, jsonGet?]
      exact objFind?_objSet_ne kvs k k2 _ h
    | none => simp [hf]
  · rfl

theorem updateIfArr_get (data : Json) (k : String) (orig : Json)
    (ni items : List Json)
    (horig : pyGetD data k (Json.arr []) = .ok orig)
    (h : jsonGet? (updateIfArr data k orig ni) k = some (Json.arr items)) :
    items = ni := by
  obtain ⟨kvs, rfl, hgetd⟩ := pyGetD_ok horig
  cases orig with
  | arr xs =>
    simp only [updateIfArr] at h
    cases hf : objFind? kvs k with
    | some w =>
      simp only [hf, jsonGet?, objFind?_objSet_self] at h
      injection h with he
      injection he with he2
      exact he2.symm
    | none =>
      simp only [hf, jsonGet?] at h
      cases h
  | null =>
    simp only [updateIfArr, jsonGet?] at h
    rw [h] at hgetd
    simp only [Option.getD] at hgetd
    exact Json.noConfusion hgetd
  | b w =>
    simp only [updateIfArr, jsonGet?] at h
    rw [h] at hgetd
    simp only [Option.getD] at hgetd
    exact Json.noConfusion hgetd
  | i w =>
    simp only [updateIfArr, jsonGet?] at h
    rw [h] at hgetd
    simp only [Option.getD] at hgetd
    exact Json.noConfusion hgetd
  | s w =>
    simp only [updateIfArr, jsonGet?] at h
    rw [h] at hgetd
    simp only [Option.getD] at hgetd
    exact Json.noConfusion hgetd
  | obj w =>
    simp only [updateIfArr, jsonGet?] at h
    rw [h] at hgetd
    simp only [Option.getD] at hgetd
    exact Json.noConfusion hgetd

theorem updateSkillsIn_frame (data : Json) (newKvs : List (String × Json))
    (k2 : String) (h : k2 ≠ "skills") :
    jsonGet? (updateSkillsIn data newKvs) k2 = jsonGet? data k2 := by
  unfold updateSkillsIn
  split
  · rename_i kvs
    cases hf : objFind? kvs "skills" with
    | some w =>
      simp only [hf, jsonGet?]
      exact objFind?_objSet_ne kvs "skills" k2 _ h
    | none => simp [hf]
  · rfl

theorem updateSkillsIn_get (data : Json) (newKvs skvs : List (String × Json))
    (h : jsonGet? (updateSkillsIn data newKvs) "skills" = some (Json.obj skvs)) :
    skvs = newKvs := by
  cases data with
  | obj kvs =>
    simp only [updateSkillsIn] at h
    cases hf : objFind? kvs "skills" with
    | some w =>
      simp only [hf, jsonGet?, objFind?_objSet_self] at h
      injection h with he
      injection he with he2
      exact he2.symm
    | none =>
      simp only [hf, jsonGet?] at h
      cases h
  | null => simp [updateSkillsIn, jsonGet?] at h
  | b w => simp [updateSkillsIn, jsonGet?] at h
  | i w => simp [updateSkillsIn, jsonGet?] at h
  | s w => simp [updateSkillsIn, jsonGet?] at h
  | arr w => simp [updateSkillsIn, jsonGet?] at h

theorem falsy_jsonGet? (data : Json) (k : String)
    (h : data.truthy = false) : jsonGet? data k = none := by
  cases data with
  | obj kvs =>
    cases kvs with
    | nil => rfl
    | cons kv rest => simp [Json.truthy, List.isEmpty] at h
  | null => rfl
  | b v => rfl
  | i n => rfl
  | s v => rfl
  | arr xs => rfl

/-- C3 (amended): after a successful `_ensure_schema` pass, every
experience item and every project is a dict with a truthy `id`, every
project has the fields `description_short`, `skills_used` and
`linked_experience`, and every skill entry in every category is a dict
with `id` and `label` keys.  (Uniqueness of ids within a list does NOT
hold in general — see the counterexample: ids that were already present
are never deduplicated.) -/
theorem c3_schema_backfill (uuid : String) (data d2 : Json) (w : Bool)
    (huuid : uuid ≠ "") (h : ensure_schema uuid data = .ok (d2, w)) :
    (∀ items, jsonGet? d2 "experience" = some (Json.arr items) →
      ∀ p ∈ items, ∃ kvs v, p = Json.obj kvs ∧ objFind? kvs "id" = some v ∧
        v.truthy = true) ∧
    (∀ ps, jsonGet? d2 "projects" = some (Json.arr ps) →
      ∀ p ∈ ps, ∃ kvs v, p = Json.obj kvs ∧ objFind? kvs "id" = some v ∧
        v.truthy = true ∧
        (objFind? kvs "description_short").isSome = true ∧
        (objFind? kvs "skills_used").isSome = true ∧
        (objFind? kvs "linked_experience").isSome = true) ∧
    (∀ skvs, jsonGet? d2 "skills" = some (Json.obj skvs) →
      ∀ cat ev, (cat, ev) ∈ skvs → ∃ entries, ev = Json.arr entries ∧
        ∀ e ∈ entries, ∃ ekvs, e = Json.obj ekvs ∧
          (objFind? ekvs "id").isSome = true ∧
          (objFind? ekvs "label").isSome = true) := by
  unfold ensure_schema at h
  by_cases htr : data.truthy
  · rw [htr] at h
    simp only [Bool.not_true, Bool.false_eq_true, if_false] at h
    obtain ⟨expVal, hev, h⟩ := bind_ok h
    obtain ⟨expItems, hei, h⟩ := bind_ok h
    obtain ⟨re, hre, h⟩ := bind_ok h
    obtain ⟨projVal, hpv, h⟩ := bind_ok h
    obtain ⟨projItems, hpi, h⟩ := bind_ok h
    obtain ⟨rp, hrp, h⟩ := bind_ok h
    obtain ⟨skillsVal, hsv, h⟩ := bind_ok h
    obtain ⟨skillsKvs, hskv, h⟩ := bind_ok h
    obtain ⟨rs, hrs, h⟩ := bind_ok h
    simp only [pure, Except.pure, Except.ok.injEq, Prod.mk.injEq] at h
    obtain ⟨hd2, hw⟩ := h
    refine ⟨?_, ?_, ?_⟩
    · intro items hitems p hp
      rw [← hd2] at hitems
      rw [updateSkillsIn_frame _ _ "experience" (by decide),
        updateIfArr_frame _ "projects" "experience" _ _ (by decide)] at hitems
      have : items = re.1 :=
        updateIfArr_get data "experience" expVal re.1 items hev hitems
      subst this
      obtain ⟨kvs, v, h1, h2, h3, h4⟩ :=
        schemaItemsLoop_good uuid "company" "experience" huuid expItems [] re
          hre p hp
      exact ⟨kvs, v, h1, h2, h3⟩
    · intro ps hps p hp
      rw [← hd2] at hps
      rw [updateSkillsIn_frame _ _ "projects" (by decide)] at hps
      have : ps = rp.1 :=
        updateIfArr_get _ "projects" projVal rp.1 ps hpv hps
      subst this
      obtain ⟨kvs, v, h1, h2, h3, h4, h5, h6, h7⟩ :=
        schemaProjectsLoop_good uuid huuid projItems [] rp hrp p hp
      exact ⟨kvs, v, h1, h2, h3, h5, h6, h7⟩
    · intro skvs hskvs cat ev hmem
      rw [← hd2] at hskvs
      have : skvs = rs.1 := updateSkillsIn_get _ rs.1 skvs hskvs
      subst this
      obtain ⟨entries, he1, he2⟩ :=
        schemaSkillsLoop_good uuid huuid skillsKvs rs hrs (cat, ev) hmem
      refine ⟨entries, he1, ?_⟩
      intro e hee
      obtain ⟨sid, lab, hsh, _, _, _⟩ := he2 e hee
      exact ⟨[("id", sid), ("label", Json.s lab)], hsh, rfl, rfl⟩
  · rw [eq_false_of_ne_true htr] at h
    simp only [Bool.not_false, if_true, Except.ok.injEq, Prod.mk.injEq] at h
    obtain ⟨hd2, hw⟩ := h
    rw [← hd2]
    have hn : ∀ k, jsonGet? data k = none :=
      fun k => falsy_jsonGet? data k (eq_false_of_ne_true htr)
    refine ⟨?_, ?_, ?_⟩
    · intro items hitems
      rw [hn "experience"] at hitems
      cases hitems
    · intro ps hps
      rw [hn "projects"] at hps
      cases hps
    · intro skvs hskvs
      rw [hn "skills"] at hskvs
      cases hskvs

/-- C3 counterexample: a master document whose two experience items both
carry the id `"a"` passes `_ensure_schema` unchanged (no write), so after
construction the ids are NOT unique within the list — the pass
deduplicates only the ids it generates, never pre-existing ones. -/
theorem c3_counterexample_duplicate_ids :
    ensure_schema "u" (Json.obj [("experience", Json.arr
        [Json.obj [("id", Json.s "a")], Json.obj [("id", Json.s "a")]])])
      = .ok (Json.obj [("experience", Json.arr
          [Json.obj [("id", Json.s "a")], Json.obj [("id", Json.s "a")]])],
          false) ∧
    ¬ (([Json.obj [("id", Json.s "a")], Json.obj [("id", Json.s "a")]]).map
        (fun p => jsonGet? p "id")).Nodup :=
  ⟨by rfl, by decide⟩

theorem c3_schema_backfill_witness :
    (∀ items, jsonGet? (Json.obj
        [("experience", Json.arr
          [Json.obj [("company", Json.s "Acme Co"), ("id", Json.s "acme-co")],
           Json.obj [("id", Json.s "x"), ("company", Json.s "B")]]),
         ("projects", Json.arr
          [Json.obj [("name", Json.s "Proj One"), ("id", Json.s "proj-one"),
            ("description_short", Json.s ""), ("skills_used", Json.arr []),
            ("linked_experience", Json.arr [])]]),
         ("skills", Json.obj [("langs", Json.arr
          [Json.obj [("id", Json.s "python"), ("label", Json.s "Python")],
           Json.obj [("id", Json.s "sq"), ("label", Json.s "SQL")]])])])
        "experience" = some (Json.arr items) →
      ∀ p ∈ items, ∃ kvs v, p = Json.obj kvs ∧ objFind? kvs "id" = some v ∧
        v.truthy = true) ∧
    (∀ ps, jsonGet? (Json.obj
        [("experience", Json.arr
          [Json.obj [("company", Json.s "Acme Co"), ("id", Json.s "acme-co")],
           Json.obj [("id", Json.s "x"), ("company", Json.s "B")]]),
         ("projects", Json.arr
          [Json.obj [("name", Json.s "Proj One"), ("id", Json.s "proj-one"),
            ("description_short", Json.s ""), ("skills_used", Json.arr []),
            ("linked_experience", Json.arr [])]]),
         ("skills", Json.obj [("langs", Json.arr
          [Json.obj [("id", Json.s "python"), ("label", Json.s "Python")],
           Json.obj [("id", Json.s "sq"), ("label", Json.s "SQL")]])])])
        "projects" = some (Json.arr ps) →
      ∀ p ∈ ps, ∃ kvs v, p = Json.obj kvs ∧ objFind? kvs "id" = some v ∧
        v.truthy = true ∧
        (objFind? kvs "description_short").isSome = true ∧
        (objFind? kvs "skills_used").isSome = true ∧
        (objFind? kvs "linked_experience").isSome = true) ∧
    (∀ skvs, jsonGet? (Json.obj
        [("experience", Json.arr
          [Json.obj [("company", Json.s "Acme Co"), ("id", Json.s "acme-co")],
           Json.obj [("id", Json.s "x"), ("company", Json.s "B")]]),
         ("projects", Json.arr
          [Json.obj [("name", Json.s "Proj One"), ("id", Json.s "proj-one"),
            ("description_short", Json.s ""), ("skills_used", Json.arr []),
            ("linked_experience", Json.arr [])]]),
         ("skills", Json.obj [("langs", Json.arr
          [Json.obj [("id", Json.s "python"), ("label", Json.s "Python")],
           Json.obj [("id", Json.s "sq"), ("label", Json.s "SQL")]])])])
        "skills" = some (Json.obj skvs) →
      ∀ cat ev, (cat, ev) ∈ skvs → ∃ entries, ev = Json.arr entries ∧
        ∀ e ∈ entries, ∃ ekvs, e = Json.obj ekvs ∧
          (objFind? ekvs "id").isSome = true ∧
          (objFind? ekvs "label").isSome = true) :=
  c3_schema_backfill "u0"
    (Json.obj
      [("experience", Json.arr
        [Json.obj [("company", Json.s "Acme Co")],
         Json.obj [("id", Json.s "x"), ("company", Json.s "B")]]),
       ("projects", Json.arr [Json.obj [("name", Json.s "Proj One")]]),
       ("skills", Json.obj [("langs", Json.arr
        [Json.s " Python ",
         Json.obj [("id", Json.s "sq"), ("label", Json.s " SQL ")]])])])
    _ true (by decide) (by rfl)

/-! ### Idempotence of stripping, and of the schema pass (C5) -/

theorem dropWhile_idem (p : Char → Bool) (l : List Char) :
    (l.dropWhile p).dropWhile p = l.dropWhile p := by
  induction l with
  | nil => rfl
  | cons c rest ih =>
    by_cases hp : p c
    · simp [List.dropWhile_cons, hp, ih]
    · simp [List.dropWhile_cons, hp]

theorem dropTrailing_idem (p : Char → Bool) (m : List Char) :
    dropTrailing p (dropTrailing p m) = dropTrailing p m := by
  unfold dropTrailing
  rw [List.reverse_reverse, dropWhile_idem]

theorem head_dropWhile_false (p : Char → Bool) :
    ∀ (l : List Char) (c : Char) (rest : List Char),
      l.dropWhile p = c :: rest → p c = false := by
  intro l
  induction l with
  | nil => intro c rest h; cases h
  | cons a t ih =>
    intro c rest h
    by_cases hp : p a
    · rw [List.dropWhile_cons, if_pos hp] at h
      exact ih c rest h
    · rw [List.dropWhile_cons, if_neg hp] at h
      injection h with h1 h2
      rw [← h1]
      simpa using hp

theorem dropWhile_stripChars (p : Char → Bool) (l : List Char) :
    (stripChars p l).dropWhile p = stripChars p l := by
  have hpre : stripChars p l <+: l.dropWhile p := by
    unfold stripChars dropTrailing
    have h := List.reverse_prefix.mpr
      (List.dropWhile_suffix (l := (l.dropWhile p).reverse) p)
    simpa using h
  cases ht : stripChars p l with
  | nil => rfl
  | cons c rest =>
    rw [ht] at hpre
    obtain ⟨u, hu⟩ := hpre
    have hc : p c = false :=
      head_dropWhile_false p l c (rest ++ u) (by rw [← hu]; rfl)
    simp [List.dropWhile_cons, hc]

theorem stripChars_idem (p : Char → Bool) (l : List Char) :
    stripChars p (stripChars p l) = stripChars p l := by
  have h1 : stripChars p (stripChars p l)
      = dropTrailing p (stripChars p l) := by
    show dropTrailing p ((stripChars p l).dropWhile p)
      = dropTrailing p (stripChars p l)
    rw [dropWhile_stripChars]
  rw [h1]
  show dropTrailing p (dropTrailing p (l.dropWhile p)) = stripChars p l
  rw [dropTrailing_idem]
  rfl

theorem pyStrip_idem (s : String) : pyStrip (pyStrip s) = pyStrip s := by
  unfold pyStrip
  rw [show (String.mk (stripChars pyWs s.data)).data
      = stripChars pyWs s.data from rfl, stripChars_idem]

/-- An experience item / project id slot as a successful schema pass leaves
it: a dict with a truthy hashable `id`. -/
def GoodExpItem (p : Json) : Prop :=
  ∃ kvs v, p = Json.obj kvs ∧ objFind? kvs "id" = some v ∧
    v.truthy = true ∧ v.hashable = true

/-- A project as a successful schema pass leaves it. -/
def GoodProject (p : Json) : Prop :=
  ∃ kvs v, p = Json.obj kvs ∧ objFind? kvs "id" = some v ∧
    v.truthy = true ∧ v.hashable = true ∧
    (objFind? kvs "description_short").isSome = true ∧
    (objFind? kvs "skills_used").isSome = true ∧
    (objFind? kvs "linked_experience").isSome = true

/-- A normalized skill entry: exactly the two keys, a truthy hashable id,
and an already-stripped label. -/
def GoodSkillEntry (e : Json) : Prop :=
  ∃ sid lab, e = Json.obj [("id", sid), ("label", Json.s lab)] ∧
    sid.truthy = true ∧ sid.hashable = true ∧ pyStrip lab = lab

theorem schemaItemStep_noop (uuid dk db : String) (ids : List Json)
    (item : Json) (hg : GoodExpItem item) :
    ∃ ids2, schemaItemStep uuid dk db ids item = .ok (item, ids2, false) := by
  obtain ⟨kvs, v, rfl, hfind, htr, hha⟩ := hg
  refine ⟨if v ∈ ids then ids else ids ++ [v], ?_⟩
  unfold schemaItemStep
  have h1 : pyGetD (Json.obj kvs) "id" Json.null = .ok v := by
    simp [pyGetD, hfind]
  rw [h1]
  simp [Bind.bind, Except.bind, htr, pySetAdd, hha, pure, Except.pure]

theorem schemaItemsLoop_noop (uuid dk db : String) :
    ∀ (items ids : List Json), (∀ p ∈ items, GoodExpItem p) →
      ∃ ids2, schemaItemsLoop uuid dk db items ids
        = .ok (items, ids2, false) := by
  intro items
  induction items with
  | nil => intro ids _; exact ⟨ids, rfl⟩
  | cons item rest ih =>
    intro ids hg
    obtain ⟨ids2, hstep⟩ :=
      schemaItemStep_noop uuid dk db ids item (hg item (List.mem_cons_self _ _))
    obtain ⟨ids3, hrest⟩ :=
      ih ids2 (fun p hp => hg p (List.mem_cons_of_mem _ hp))
    refine ⟨ids3, ?_⟩
    simp only [schemaItemsLoop]
    rw [hstep]
    simp only [Bind.bind, Except.bind]
    rw [hrest]
    rfl

theorem ensureField_present (kvs : List (String × Json)) (k : String)
    (v : Json) (h : (objFind? kvs k).isSome = true) :
    ensureField kvs k v = (kvs, false) := by
  unfold ensureField
  cases hf : objFind? kvs k with
  | some w => rfl
  | none => rw [hf] at h; cases h

theorem schemaProjectStep_noop (uuid : String) (ids : List Json) (p : Json)
    (hg : GoodProject p) :
    ∃ ids2, schemaProjectStep uuid ids p = .ok (p, ids2, false) := by
  obtain ⟨kvs, v, rfl, hfind, htr, hha, hd, hs, hl⟩ := hg
  obtain ⟨ids2, hstep⟩ := schemaItemStep_noop uuid "name" "project" ids
    (Json.obj kvs) ⟨kvs, v, rfl, hfind, htr, hha⟩
  refine ⟨ids2, ?_⟩
  unfold schemaProjectStep
  rw [hstep]
  simp only [Bind.bind, Except.bind]
  rw [ensureField_present kvs "description_short" (Json.s "") hd]
  rw [ensureField_present kvs "skills_used" (Json.arr []) hs]
  rw [ensureField_present kvs "linked_experience" (Json.arr []) hl]
  rfl

theorem schemaProjectsLoop_noop (uuid : String) :
    ∀ (items ids : List Json), (∀ p ∈ items, GoodProject p) →
      ∃ ids2, schemaProjectsLoop uuid items ids = .ok (items, ids2, false) := by
  intro items
  induction items with
  | nil => intro ids _; exact ⟨ids, rfl⟩
  | cons item rest ih =>
    intro ids hg
    obtain ⟨ids2, hstep⟩ :=
      schemaProjectStep_noop uuid ids item (hg item (List.mem_cons_self _ _))
    obtain ⟨ids3, hrest⟩ :=
      ih ids2 (fun p hp => hg p (List.mem_cons_of_mem _ hp))
    refine ⟨ids3, ?_⟩
    simp only [schemaProjectsLoop]
    rw [hstep]
    simp only [Bind.bind, Except.bind]
    rw [hrest]
    rfl

theorem schemaSkillEntry_noop (uuid : String) (seen : List Json) (e : Json)
    (hg : GoodSkillEntry e) :
    ∃ seen2, schemaSkillEntry uuid seen e = .ok (e, seen2, false) := by
  obtain ⟨sid, lab, rfl, htr, hha, hlab⟩ := hg
  refine ⟨if sid ∈ seen then seen else seen ++ [sid], ?_⟩
  unfold schemaSkillEntry skillEntryId skillEntryLabel
  simp [objFind?, htr, pySetAdd, hha, hlab, Bind.bind, Except.bind,
    pure, Except.pure]

theorem schemaSkillEntriesLoop_noop (uuid : String) :
    ∀ (entries seen : List Json), (∀ e ∈ entries, GoodSkillEntry e) →
      ∃ seen2, schemaSkillEntriesLoop uuid entries seen
        = .ok (entries, seen2, false) := by
  intro entries
  induction entries with
  | nil => intro seen _; exact ⟨seen, rfl⟩
  | cons e rest ih =>
    intro seen hg
    obtain ⟨seen2, hstep⟩ :=
      schemaSkillEntry_noop uuid seen e (hg e (List.mem_cons_self _ _))
    obtain ⟨seen3, hrest⟩ :=
      ih seen2 (fun q hq => hg q (List.mem_cons_of_mem _ hq))
    refine ⟨seen3, ?_⟩
    simp only [schemaSkillEntriesLoop]
    rw [hstep]
    simp only [Bind.bind, Except.bind]
    rw [hrest]
    rfl

theorem schemaSkillsLoop_noop (uuid : String) :
    ∀ (skvs : List (String × Json)),
      (∀ cv ∈ skvs, ∃ entries, cv.2 = Json.arr entries ∧
        ∀ e ∈ entries, GoodSkillEntry e) →
      ∃ out1, schemaSkillsLoop uuid skvs = .ok (out1, false) := by
  intro skvs
  induction skvs with
  | nil => intro _; exact ⟨[], rfl⟩
  | cons cv rest ih =>
    obtain ⟨cat, ev⟩ := cv
    intro hg
    obtain ⟨entries, hev, hent⟩ := hg (cat, ev) (List.mem_cons_self _ _)
    have hev2 : ev = Json.arr entries := hev
    subst hev2
    obtain ⟨seen2, hloop⟩ := schemaSkillEntriesLoop_noop uuid entries [] hent
    obtain ⟨out1, hrest⟩ := ih (fun q hq => hg q (List.mem_cons_of_mem _ hq))
    refine ⟨(cat, Json.arr entries) :: out1, ?_⟩
    simp only [schemaSkillsLoop, pyIter]
    simp only [Bind.bind, Except.bind]
    rw [hloop]
    simp only [Except.bind]
    rw [hrest]
    rfl

theorem updateIfArr_get2 (data : Json) (k : String) (orig : Json)
    (ni : List Json) (v : Json)
    (horig : pyGetD data k (Json.arr []) = .ok orig)
    (h : jsonGet? (updateIfArr data k orig ni) k = some v) :
    v = Json.arr ni ∨ (v = orig ∧ ∀ xs, orig ≠ Json.arr xs) := by
  obtain ⟨kvs, rfl, hgetd⟩ := pyGetD_ok horig
  cases orig with
  | arr xs =>
    simp only [updateIfArr] at h
    cases hf : objFind? kvs k with
    | some w =>
      simp only [hf, jsonGet?, objFind?_objSet_self] at h
      injection h with he
      exact Or.inl he.symm
    | none =>
      simp only [hf, jsonGet?] at h
      cases h
  | null =>
    simp only [updateIfArr, jsonGet?] at h
    rw [h] at hgetd
    simp only [Option.getD] at hgetd
    exact Or.inr ⟨hgetd, fun xs hc => Json.noConfusion hc⟩
  | b wv =>
    simp only [updateIfArr, jsonGet?] at h
    rw [h] at hgetd
    simp only [Option.getD] at hgetd
    exact Or.inr ⟨hgetd, fun xs hc => Json.noConfusion hc⟩
  | i wv =>
    simp only [updateIfArr, jsonGet?] at h
    rw [h] at hgetd
    simp only [Option.getD] at hgetd
    exact Or.inr ⟨hgetd, fun xs hc => Json.noConfusion hc⟩
  | s wv =>
    simp only [updateIfArr, jsonGet?] at h
    rw [h] at hgetd
    simp only [Option.getD] at hgetd
    exact Or.inr ⟨hgetd, fun xs hc => Json.noConfusion hc⟩
  | obj wv =>
    simp only [updateIfArr, jsonGet?] at h
    rw [h] at hgetd
    simp only [Option.getD] at hgetd
    exact Or.inr ⟨hgetd, fun xs hc => Json.noConfusion hc⟩

theorem updateSkillsIn_get2 (data : Json) (nk : List (String × Json))
    (v : Json)
    (h : jsonGet? (updateSkillsIn data nk) "skills" = some v) :
    v = Json.obj nk := by
  cases data with
  | obj kvs =>
    simp only [updateSkillsIn] at h
    cases hf : objFind? kvs "skills" with
    | some w =>
      simp only [hf, jsonGet?, objFind?_objSet_self] at h
      injection h with he
      exact he.symm
    | none =>
      simp only [hf, jsonGet?] at h
      cases h
  | null => simp [updateSkillsIn, jsonGet?] at h
  | b wv => simp [updateSkillsIn, jsonGet?] at h
  | i wv => simp [updateSkillsIn, jsonGet?] at h
  | s wv => simp [updateSkillsIn, jsonGet?] at h
  | arr wv => simp [updateSkillsIn, jsonGet?] at h

theorem itemsLoop_nonarr_nil (uuid dk db : String) (orig : Json)
    (hnonarr : ∀ xs, orig ≠ Json.arr xs) (items ids : List Json)
    (out : List Json × List Json × Bool)
    (hit : pyIter orig = .ok items)
    (hl : schemaItemsLoop uuid dk db items ids = .ok out) :
    items = [] := by
  cases items with
  | nil => rfl
  | cons x rest =>
    exfalso
    simp only [schemaItemsLoop] at hl
    obtain ⟨t1, hstep, hl⟩ := bind_ok hl
    unfold schemaItemStep at hstep
    obtain ⟨idv, hid, hstep⟩ := bind_ok hstep
    obtain ⟨kvsx, hx, _⟩ := pyGetD_ok hid
    cases orig with
    | arr xs => exact hnonarr xs rfl
    | s str =>
      simp only [pyIter, Except.ok.injEq] at hit
      cases hd : str.data with
      | nil => rw [hd] at hit; simp at hit
      | cons c cs =>
        rw [hd] at hit
        simp only [List.map] at hit
        injection hit with h1 h2
        rw [hx] at h1
        cases h1
    | obj kvs2 =>
      simp only [pyIter, Except.ok.injEq] at hit
      cases kvs2 with
      | nil => simp at hit
      | cons kv t =>
        simp only [List.map] at hit
        injection hit with h1 h2
        rw [hx] at h1
        cases h1
    | null => simp [pyIter] at hit
    | b wv => simp [pyIter] at hit
    | i wv => simp [pyIter] at hit

theorem projectsLoop_nonarr_nil (uuid : String) (orig : Json)
    (hnonarr : ∀ xs, orig ≠ Json.arr xs) (items ids : List Json)
    (out : List Json × List Json × Bool)
    (hit : pyIter orig = .ok items)
    (hl : schemaProjectsLoop uuid items ids = .ok out) :
    items = [] := by
  cases items with
  | nil => rfl
  | cons x rest =>
    exfalso
    simp only [schemaProjectsLoop] at hl
    obtain ⟨t1, hstep, hl⟩ := bind_ok hl
    unfold schemaProjectStep at hstep
    obtain ⟨t0, hstep0, hstep⟩ := bind_ok hstep
    unfold schemaItemStep at hstep0
    obtain ⟨idv, hid, hstep0⟩ := bind_ok hstep0
    obtain ⟨kvsx, hx, _⟩ := pyGetD_ok hid
    cases orig with
    | arr xs => exact hnonarr xs rfl
    | s str =>
      simp only [pyIter, Except.ok.injEq] at hit
      cases hd : str.data with
      | nil => rw [hd] at hit; simp at hit
      | cons c cs =>
        rw [hd] at hit
        simp only [List.map] at hit
        injection hit with h1 h2
        rw [hx] at h1
        cases h1
    | obj kvs2 =>
      simp only [pyIter, Except.ok.injEq] at hit
      cases kvs2 with
      | nil => simp at hit
      | cons kv t =>
        simp only [List.map] at hit
        injection hit with h1 h2
        rw [hx] at h1
        cases h1
    | null => simp [pyIter] at hit
    | b wv => simp [pyIter] at hit
    | i wv => simp [pyIter] at hit

theorem objSet_ne_nil (kvs : List (String × Json)) (k : String) (v : Json) :
    objSet kvs k v ≠ [] := by
  cases kvs with
  | nil => simp [objSet]
  | cons kv rest =>
    obtain ⟨k0, v0⟩ := kv
    by_cases h : k0 = k
    · simp [objSet, h]
    · simp [objSet, h]

theorem updateIfArr_obj (kvs : List (String × Json)) (k : String)
    (orig : Json) (ni : List Json) :
    ∃ kvs2, updateIfArr (Json.obj kvs) k orig ni = Json.obj kvs2 ∧
      (kvs ≠ [] → kvs2 ≠ []) := by
  cases orig with
  | arr xs =>
    simp only [updateIfArr]
    cases hf : objFind? kvs k with
    | some w => exact ⟨_, rfl, fun _ => objSet_ne_nil kvs k _⟩
    | none => exact ⟨kvs, rfl, fun h => h⟩
  | null => exact ⟨kvs, rfl, fun h => h⟩
  | b wv => exact ⟨kvs, rfl, fun h => h⟩
  | i wv => exact ⟨kvs, rfl, fun h => h⟩
  | s wv => exact ⟨kvs, rfl, fun h => h⟩
  | obj wv => exact ⟨kvs, rfl, fun h => h⟩

theorem updateSkillsIn_obj (kvs : List (String × Json))
    (nk : List (String × Json)) :
    ∃ kvs2, updateSkillsIn (Json.obj kvs) nk = Json.obj kvs2 ∧
      (kvs ≠ [] → kvs2 ≠ []) := by
  simp only [updateSkillsIn]
  cases hf : objFind? kvs "skills" with
  | some w => exact ⟨_, rfl, fun _ => objSet_ne_nil kvs "skills" _⟩
  | none => exact ⟨kvs, rfl, fun h => h⟩

theorem pyGetD_obj (kvs : List (String × Json)) (k : String) (dflt : Json) :
    pyGetD (Json.obj kvs) k dflt = .ok ((objFind? kvs k).getD dflt) := rfl

/-- C5: schema back-filling is idempotent at the stored-file level: the
file left behind by one `MasterStore` construction passes `_ensure_schema`
with `mutated = False`, so a second construction performs no write and the
stored document is unchanged — constructing twice equals constructing
once. -/
theorem c5_ensure_schema_idempotent (uuid : String) (data f1 : Json)
    (huuid : uuid ≠ "") (h : ensureSchemaFile uuid data = .ok f1) :
    (∃ d2, ensure_schema uuid f1 = .ok (d2, false)) ∧
    ensureSchemaFile uuid f1 = .ok f1 := by
  have main : ∃ d2, ensure_schema uuid f1 = .ok (d2, false) := by
    unfold ensureSchemaFile at h
    obtain ⟨r, hr, h⟩ := bind_ok h
    obtain ⟨d, w⟩ := r
    simp only [pure, Except.pure, Except.ok.injEq] at h
    cases w with
    | false =>
      simp at h
      subst h
      exact ⟨d, hr⟩
    | true =>
      simp at h
      subst h
      unfold ensure_schema at hr
      by_cases htr : data.truthy
      case neg =>
        simp [eq_false_of_ne_true htr] at hr
      case pos =>
      rw [htr] at hr
      simp only [Bool.not_true, Bool.false_eq_true, if_false] at hr
      obtain ⟨expVal, hev, hr⟩ := bind_ok hr
      obtain ⟨expItems, hei, hr⟩ := bind_ok hr
      obtain ⟨re, hre, hr⟩ := bind_ok hr
      obtain ⟨projVal, hpv, hr⟩ := bind_ok hr
      obtain ⟨projItems, hpi, hr⟩ := bind_ok hr
      obtain ⟨rp, hrp, hr⟩ := bind_ok hr
      obtain ⟨skillsVal, hsv, hr⟩ := bind_ok hr
      obtain ⟨skillsKvs, hskv, hr⟩ := bind_ok hr
      obtain ⟨rs, hrs, hr⟩ := bind_ok hr
      simp only [pure, Except.pure, Except.ok.injEq, Prod.mk.injEq] at hr
      obtain ⟨hd, hw⟩ := hr
      obtain ⟨kvs, hdataobj, hgetd_e⟩ := pyGetD_ok hev
      subst hdataobj
      have hkvs_ne : kvs ≠ [] := by
        intro hnil
        subst hnil
        simp [Json.truthy] at htr
      obtain ⟨kvs1, hk1, hne1⟩ := updateIfArr_obj kvs "experience" expVal re.1
      rw [hk1] at hpv hd
      obtain ⟨kvs2, hk2, hne2⟩ := updateIfArr_obj kvs1 "projects" projVal rp.1
      rw [hk2] at hd
      obtain ⟨kvsd, hkd, hned⟩ := updateSkillsIn_obj kvs2 rs.1
      rw [hkd] at hd
      subst hd
      have hdne : kvsd ≠ [] := hned (hne2 (hne1 hkvs_ne))
      have hdisEmp : kvsd.isEmpty = false := by
        cases kvsd with
        | nil => exact absurd rfl hdne
        | cons a b => rfl
      have hdtr : (Json.obj kvsd).truthy = true := by
        simp [Json.truthy, hdisEmp]
      -- experience facts for the second pass
      have hexp : ∃ items2,
          pyIter ((objFind? kvsd "experience").getD (Json.arr [])) = .ok items2 ∧
          ∀ p ∈ items2, GoodExpItem p := by
        cases hf : objFind? kvsd "experience" with
        | none => exact ⟨[], by simp [pyIter], by simp⟩
        | some v =>
          have hv : jsonGet? (updateIfArr (Json.obj kvs) "experience" expVal re.1)
              "experience" = some v := by
            rw [hk1]
            have h1 : jsonGet? (Json.obj kvsd) "experience"
                = jsonGet? (Json.obj kvs1) "experience" := by
              rw [← hkd, ← hk2,
                updateSkillsIn_frame _ _ "experience" (by decide),
                updateIfArr_frame _ "projects" "experience" _ _ (by decide)]
            rw [← h1]
            simpa [jsonGet?] using hf
          rcases updateIfArr_get2 (Json.obj kvs) "experience" expVal re.1 v
              hev hv with hva | ⟨hvo, hnonarr⟩
          · subst hva
            refine ⟨re.1, by simp [pyIter], ?_⟩
            intro p hp
            exact schemaItemsLoop_good uuid "company" "experience" huuid
              expItems [] re hre p hp
          · subst hvo
            have hnil : expItems = [] := itemsLoop_nonarr_nil uuid "company"
              "experience" v hnonarr expItems [] re hei hre
            rw [hnil] at hei
            exact ⟨[], hei, by simp⟩
      obtain ⟨items2, hit2, hgood2⟩ := hexp
      obtain ⟨idsA, hloopA⟩ :=
        schemaItemsLoop_noop uuid "company" "experience" items2 [] hgood2
      obtain ⟨kvs1b, hk1b, hne1b⟩ := updateIfArr_obj kvsd "experience"
        ((objFind? kvsd "experience").getD (Json.arr [])) items2
      -- projects facts for the second pass
      have hJp : objFind? kvs1b "projects" = objFind? kvsd "projects" := by
        have := updateIfArr_frame (Json.obj kvsd) "experience" "projects"
          ((objFind? kvsd "experience").getD (Json.arr [])) items2 (by decide)
        rw [hk1b] at this
        simpa [jsonGet?] using this
      have hproj : ∃ items2p,
          pyIter ((objFind? kvs1b "projects").getD (Json.arr [])) = .ok items2p ∧
          ∀ p ∈ items2p, GoodProject p := by
        rw [hJp]
        cases hf : objFind? kvsd "projects" with
        | none => exact ⟨[], by simp [pyIter], by simp⟩
        | some v =>
          have hv : jsonGet? (updateIfArr (Json.obj kvs1) "projects" projVal
              rp.1) "projects" = some v := by
            rw [hk2]
            have h1 : jsonGet? (Json.obj kvsd) "projects"
                = jsonGet? (Json.obj kvs2) "projects" := by
              rw [← hkd, updateSkillsIn_frame _ _ "projects" (by decide)]
            rw [← h1]
            simpa [jsonGet?] using hf
          rcases updateIfArr_get2 (Json.obj kvs1) "projects" projVal rp.1 v
              hpv hv with hva | ⟨hvo, hnonarr⟩
          · subst hva
            refine ⟨rp.1, by simp [pyIter], ?_⟩
            intro p hp
            exact schemaProjectsLoop_good uuid huuid projItems [] rp hrp p hp
          · subst hvo
            have hnil : projItems = [] := projectsLoop_nonarr_nil uuid
              v hnonarr projItems [] rp hpi hrp
            rw [hnil] at hpi
            exact ⟨[], hpi, by simp⟩
      obtain ⟨items2p, hit2p, hgood2p⟩ := hproj
      obtain ⟨idsB, hloopB⟩ := schemaProjectsLoop_noop uuid items2p [] hgood2p
      obtain ⟨kvs2b, hk2b, hne2b⟩ := updateIfArr_obj kvs1b "projects"
        ((objFind? kvs1b "projects").getD (Json.arr [])) items2p
      -- skills facts for the second pass
      have hsk_eq : objFind? kvs2b "skills" = objFind? kvsd "skills" := by
        have hstep2 := updateIfArr_frame (Json.obj kvs1b) "projects" "skills"
          ((objFind? kvs1b "projects").getD (Json.arr [])) items2p (by decide)
        rw [hk2b] at hstep2
        have hstep1 := updateIfArr_frame (Json.obj kvsd) "experience" "skills"
          ((objFind? kvsd "experience").getD (Json.arr [])) items2 (by decide)
        rw [hk1b] at hstep1
        have := hstep2.trans hstep1
        simpa [jsonGet?] using this
      have hskills : ∃ sk2,
          dictItems ((objFind? kvs2b "skills").getD (Json.obj [])) = .ok sk2 ∧
          ∀ cv ∈ sk2, ∃ entries, cv.2 = Json.arr entries ∧
            ∀ e ∈ entries, GoodSkillEntry e := by
        rw [hsk_eq]
        cases hf : objFind? kvsd "skills" with
        | none => exact ⟨[], rfl, by simp⟩
        | some v =>
          have hv : v = Json.obj rs.1 := by
            refine updateSkillsIn_get2 (Json.obj kvs2) rs.1 v ?_
            rw [hkd]
            simpa [jsonGet?] using hf
          subst hv
          refine ⟨rs.1, rfl, ?_⟩
          intro cv hcv
          obtain ⟨entries, he1, he2⟩ :=
            schemaSkillsLoop_good uuid huuid skillsKvs rs hrs cv hcv
          refine ⟨entries, he1, ?_⟩
          intro e he
          obtain ⟨sid, lab, hsh, t1, t2, l0, hl0⟩ := he2 e he
          exact ⟨sid, lab, hsh, t1, t2, by rw [hl0, pyStrip_idem]⟩
      obtain ⟨sk2, hsk2, hgoodsk⟩ := hskills
      obtain ⟨out1, hloopC⟩ := schemaSkillsLoop_noop uuid sk2 hgoodsk
      -- assemble the second pass
      refine ⟨updateSkillsIn (Json.obj kvs2b) out1, ?_⟩
      unfold ensure_schema
      rw [hdtr]
      simp only [Bool.not_true, Bool.false_eq_true, if_false]
      rw [pyGetD_obj kvsd "experience" (Json.arr [])]
      simp only [Bind.bind, Except.bind]
      rw [hit2]
      simp only [Except.bind]
      rw [hloopA]
      simp only [Except.bind]
      rw [hk1b, pyGetD_obj kvs1b "projects" (Json.arr [])]
      simp only [Except.bind]
      rw [hit2p]
      simp only [Except.bind]
      rw [hloopB]
      simp only [Except.bind]
      rw [hk2b, pyGetD_obj kvs2b "skills" (Json.obj [])]
      simp only [Except.bind]
      rw [hsk2]
      simp only [Except.bind]
      rw [hloopC]
      simp only [Except.bind]
      rfl
  refine ⟨main, ?_⟩
  obtain ⟨d2, hd2⟩ := main
  unfold ensureSchemaFile
  rw [hd2]
  rfl

/-- Witness for C5: a master document with an experience item missing its
id and a bare-string skill entry is back-filled once, and the resulting
file passes the schema check untouched. -/
theorem c5_ensure_schema_idempotent_witness :
    (∃ d2, ensure_schema "u0" (Json.obj
      [("experience", Json.arr [Json.obj [("company", Json.s "Acme Co"),
        ("id", Json.s "acme-co")]]),
       ("skills", Json.obj [("langs", Json.arr
        [Json.obj [("id", Json.s "python"), ("label", Json.s "Python")]])])])
      = .ok (d2, false)) ∧
    ensureSchemaFile "u0" (Json.obj
      [("experience", Json.arr [Json.obj [("company", Json.s "Acme Co"),
        ("id", Json.s "acme-co")]]),
       ("skills", Json.obj [("langs", Json.arr
        [Json.obj [("id", Json.s "python"), ("label", Json.s "Python")]])])])
      = .ok (Json.obj
      [("experience", Json.arr [Json.obj [("company", Json.s "Acme Co"),
        ("id", Json.s "acme-co")]]),
       ("skills", Json.obj [("langs", Json.arr
        [Json.obj [("id", Json.s "python"), ("label", Json.s "Python")]])])]) :=
  c5_ensure_schema_idempotent "u0"
    (Json.obj
      [("experience", Json.arr [Json.obj [("company", Json.s "Acme Co")]]),
       ("skills", Json.obj [("langs", Json.arr [Json.s " Python "])])])
    (Json.obj
      [("experience", Json.arr [Json.obj [("company", Json.s "Acme Co"),
        ("id", Json.s "acme-co")]]),
       ("skills", Json.obj [("langs", Json.arr
        [Json.obj [("id", Json.s "python"), ("label", Json.s "Python")]])])])
    (by decide) (by rfl)
